import Mathlib

/-!
Verification of the routing-and-spectrum-assignment (RSA) core of the Cdemo
repository.  The repository contains five C++ variants of a channel-constrained
shortest-path engine; the definitions below are shallow embeddings of those
variants, translated function by function from the C++ sources:

* `ChannelGraph`              — src/ChannelGraph.cpp
* `ChannelGraph2`             — src/ChannelGraph2.cpp
* `OptimizedEfficientGraph`   — src/OptimizedEfficientGraph.cpp
* `OptimizedEfficientGraph1`  — src/OptimizedEfficientGraph1.cpp
* `OptimizedEfficientGraph3`  — src/OptimizedEfficientGraph3.cpp

Machine `int`s are modelled as `Nat` (cost vectors are nonnegative for valid
graphs, and `INT_MAX` is kept as the explicit sentinel `INF`); values that the
C++ code passes around as possibly-negative `int`s (API arguments, the `-1`
channel sentinel) are modelled as `Int`.  C++ exceptions are modelled with
`Except Err`; `while` loops are modelled with explicit fuel, `none` standing
for a computation that has not terminated within its fuel.
-/

namespace RSA

/-- `CHANNELS` from the C++ sources: every edge carries 100 channels. -/
def CHANNELS : Nat := 100

/-- `INF` from the C++ sources: `numeric_limits<int>::max()`, i.e. `INT_MAX`. -/
def INF : Nat := 2147483647

/-- The error kinds thrown by the C++ code: `std::out_of_range`,
`std::invalid_argument` and `std::runtime_error`. -/
inductive Err where
  | rangeError
  | invalidArgument
  | runtimeError
deriving DecidableEq

instance {e a : Type} [DecidableEq e] [DecidableEq a] : DecidableEq (Except e a) := fun x y =>
  match x, y with
  | .ok u, .ok v =>
    if h : u = v then .isTrue (by rw [h]) else .isFalse (by intro hh; cases hh; exact h rfl)
  | .error u, .error v =>
    if h : u = v then .isTrue (by rw [h]) else .isFalse (by intro hh; cases hh; exact h rfl)
  | .ok _, .error _ => .isFalse (by intro hh; cases hh)
  | .error _, .ok _ => .isFalse (by intro hh; cases hh)

/-- Read a cell of a 2-dimensional array modelled as a list of rows. -/
def get2 (d : List (List α)) (i j : Nat) (dflt : α) : α :=
  (d.getD i []).getD j dflt

/-- Write a cell of a 2-dimensional array modelled as a list of rows
(`List.set` is a no-op out of range, matching in-range C++ use). -/
def set2 (d : List (List α)) (i j : Nat) (x : α) : List (List α) :=
  d.set i ((d.getD i []).set j x)

/-- The topology shared by the `ChannelGraph` variants: a node count, an
adjacency list carrying `(to, channel_costs)` records, and the per-node
conversion-capability flags. -/
structure Graph where
  node_count : Nat
  adj_list : List (List (Nat × List Nat))
  node_support_convert : List Bool

/-- Adjacency list of a node (`adj_list[u]`). -/
def Graph.adjOf (g : Graph) (u : Nat) : List (Nat × List Nat) :=
  g.adj_list.getD u []

/-- Conversion capability of a node (`node_support_convert[u]`). -/
def Graph.convertOf (g : Graph) (u : Nat) : Bool :=
  g.node_support_convert.getD u false

/-- The `ChannelGraph(int n)` constructor: empty adjacency lists, all
conversion flags `false`. -/
def mkGraph (n : Nat) : Graph :=
  ⟨n, List.replicate n [], List.replicate n false⟩

/-- Well-formedness of a topology, as guaranteed by construction through
`addEdge` / `setNodeConversion`: the arrays have the advertised lengths, every
edge target is a valid node id and every cost vector has `CHANNELS` entries. -/
def Graph.WF (g : Graph) : Prop :=
  g.adj_list.length = g.node_count ∧
  g.node_support_convert.length = g.node_count ∧
  ∀ l ∈ g.adj_list, ∀ e ∈ l, e.1 < g.node_count ∧ e.2.length = CHANNELS

/-- `calculateChannelCost` from src/ChannelGraph.cpp (identical in
src/ChannelGraph2.cpp): the summed cost of the `width` consecutive channels
starting at `start_ch`, or `INF` if the run leaves the spectrum. -/
def calculateChannelCost (channel_costs : List Nat) (start_ch width : Nat) : Nat :=
  if start_ch + width > CHANNELS then INF
  else ((List.range width).map (fun i => channel_costs.getD (start_ch + i) 0)).sum

namespace ChannelGraph

/-- `addEdge` from src/ChannelGraph.cpp: validates the node ids and the cost
vector length, then inserts the edge into both adjacency lists. -/
def addEdge (g : Graph) (u v : Int) (channel_costs : List Nat) : Except Err Graph :=
  if u < 0 ∨ u ≥ g.node_count ∨ v < 0 ∨ v ≥ g.node_count then
    .error .rangeError
  else if channel_costs.length ≠ CHANNELS then
    .error .invalidArgument
  else
    let un := u.toNat
    let vn := v.toNat
    let a1 := g.adj_list.set un (g.adjOf un ++ [(vn, channel_costs)])
    let g1 : Graph := ⟨g.node_count, a1, g.node_support_convert⟩
    let a2 := g1.adj_list.set vn (g1.adjOf vn ++ [(un, channel_costs)])
    .ok ⟨g.node_count, a2, g.node_support_convert⟩

/-- `setNodeConversion` from src/ChannelGraph.cpp. -/
def setNodeConversion (g : Graph) (node : Int) (support : Bool) : Except Err Graph :=
  if node < 0 ∨ node ≥ g.node_count then
    .error .rangeError
  else
    .ok ⟨g.node_count, g.adj_list, g.node_support_convert.set node.toNat support⟩

/-- One priority-queue element of `findShortestPath`:
`(代价 cost, 当前节点 node, 起始通道 start channel)`. -/
abbrev Entry := Nat × Nat × Nat

/-- The comparison used by `priority_queue<State, vector<State>, greater<State>>`
on `tuple<int,int,int>`: lexicographic order. -/
def entryLe (a b : Entry) : Bool :=
  a.1 < b.1 || (a.1 = b.1 && (a.2.1 < b.2.1 || (a.2.1 = b.2.1 && a.2.2 ≤ b.2.2)))

/-- Extract a minimal element (and the remaining queue) from the priority
queue.  All queue elements are distinct tuples, so the C++ heap's pop is
exactly extraction of the lexicographic minimum. -/
def popMin : List Entry → Option (Entry × List Entry)
  | [] => none
  | e :: es =>
    match popMin es with
    | none => some (e, [])
    | some (m, rest) => if entryLe e m then some (e, es) else some (m, e :: rest)

/-- The mutable state of the search loop: the priority queue, the
`dist[node][start_channel]` array and the `prev[node][start_channel]` array
(`{-1,-1}` in C++ is modelled as `none`). -/
structure SState where
  pq : List Entry
  dist : List (List Nat)
  prev : List (List (Option (Nat × Nat)))

/-- `dist[v][ch]`. -/
def distAt (st : SState) (v ch : Nat) : Nat :=
  get2 st.dist v ch INF

/-- `prev[v][ch]`. -/
def prevAt (p : List (List (Option (Nat × Nat)))) (v ch : Nat) : Option (Nat × Nat) :=
  get2 p v ch none

/-- The `possible_start_channels` computation of `findShortestPath`: any start
channel if `u` converts or is the source, otherwise only the incoming one. -/
def possibleStartChannels (g : Graph) (s w u uch : Nat) : List Nat :=
  if g.convertOf u || u = s then List.range (CHANNELS - w + 1) else [uch]

/-- Relaxation of one candidate start channel `ch` on the edge `(u, v)` while
popping `(ccur, u, _)`: mirrors the inner loop body of `findShortestPath`. -/
def relaxChannel (w : Nat) (costs : List Nat) (v ccur : Nat) (u uch : Nat)
    (st : SState) (ch : Nat) : SState :=
  let channel_cost := calculateChannelCost costs ch w
  if channel_cost = INF then st
  else
    let new_cost := ccur + channel_cost
    if new_cost < distAt st v ch then
      ⟨(new_cost, v, ch) :: st.pq,
       set2 st.dist v ch new_cost,
       set2 st.prev v ch (some (u, uch))⟩
    else st

/-- Relaxation of one adjacency-list edge of `u`. -/
def relaxEdge (g : Graph) (s w u uch ccur : Nat) (st : SState)
    (e : Nat × List Nat) : SState :=
  (possibleStartChannels g s w u uch).foldl (relaxChannel w e.2 e.1 ccur u uch) st

/-- The walk of `reconstructPath` in src/ChannelGraph.cpp: follow `prev` links
until the `-1` sentinel; produces the path target-first (the C++ code reverses
it afterwards).  Fuel bounds the `while` loop; `none` models divergence. -/
def reconWalk (p : List (List (Option (Nat × Nat)))) :
    Nat → Nat × Nat → Option (List (Nat × Nat))
  | 0, _ => none
  | fuel + 1, (v, ch) =>
    match prevAt p v ch with
    | none => some [(v, ch)]
    | some (u, chu) => (reconWalk p fuel (u, chu)).map (fun rest => (v, ch) :: rest)

/-- `reconstructPath` from src/ChannelGraph.cpp: walk the predecessor chain
from the target state and reverse it. -/
def reconstructPath (g : Graph) (p : List (List (Option (Nat × Nat))))
    (target target_ch cost : Nat) : Option (List (Nat × Nat) × Nat) :=
  (reconWalk p (g.node_count * CHANNELS + 1) (target, target_ch)).map
    (fun path => (path.reverse, cost))

/-- The `while (!pq.empty())` loop of `findShortestPath`.  Returns
`some ([], INF)` when the queue empties, `some (path, cost)` when the target
is popped and the reconstruction terminates, `none` when the fuel runs out. -/
def dijkstraLoop (g : Graph) (s t w : Nat) :
    Nat → SState → Option (List (Nat × Nat) × Nat)
  | 0, _ => none
  | fuel + 1, st =>
    match popMin st.pq with
    | none => some ([], INF)
    | some ((ccur, u, uch), pq') =>
      if u = t then
        reconstructPath g st.prev t uch ccur
      else if ccur > distAt st u uch then
        dijkstraLoop g s t w fuel ⟨pq', st.dist, st.prev⟩
      else
        let st' := (g.adjOf u).foldl (relaxEdge g s w u uch ccur) ⟨pq', st.dist, st.prev⟩
        dijkstraLoop g s t w fuel st'

/-- One iteration of the source-initialisation loop of `findShortestPath`:
set `dist[source][ch] = 0` and push `(0, source, ch)`. -/
def initStep (s : Nat) (st : SState) (ch : Nat) : SState :=
  ⟨st.pq ++ [(0, s, ch)], set2 st.dist s ch 0, st.prev⟩

/-- The source initialisation of `findShortestPath`: for every valid start
channel, set `dist[source][ch] = 0` and push `(0, source, ch)`. -/
def initState (g : Graph) (s w : Nat) : SState :=
  (List.range (CHANNELS - w + 1)).foldl (initStep s)
    ⟨[], List.replicate g.node_count (List.replicate CHANNELS INF),
     List.replicate g.node_count (List.replicate CHANNELS none)⟩

/-- `findShortestPath` from src/ChannelGraph.cpp: input validation followed by
the channel-augmented Dijkstra search.  The result is
`(path as (node, start-channel) pairs, total cost)`; `([], INF)` means the
target is unreachable, and `none` models a search that did not finish within
`fuel` loop iterations. -/
def findShortestPath (g : Graph) (source target width : Int) (fuel : Nat) :
    Except Err (Option (List (Nat × Nat) × Nat)) :=
  if width < 1 ∨ width > 3 then
    .error .invalidArgument
  else if source < 0 ∨ source ≥ g.node_count ∨ target < 0 ∨ target ≥ g.node_count then
    .error .rangeError
  else
    let s := source.toNat
    let t := target.toNat
    let w := width.toNat
    .ok (dijkstraLoop g s t w fuel (initState g s w))

end ChannelGraph

namespace ChannelGraph2

open ChannelGraph (Entry popMin)

/-- The mutable state of the src/ChannelGraph2.cpp search loop: as in
src/ChannelGraph.cpp plus the `visited[node][start_channel]` closed-set
marks. -/
structure SState2 where
  pq : List Entry
  dist : List (List Nat)
  prev : List (List (Option (Nat × Nat)))
  visited : List (List Bool)

/-- `dist[v][ch]` of src/ChannelGraph2.cpp. -/
def distAt2 (st : SState2) (v ch : Nat) : Nat :=
  get2 st.dist v ch INF

/-- `visited[v][ch]`. -/
def visAt (st : SState2) (v ch : Nat) : Bool :=
  get2 st.visited v ch false

/-- The `possible_start_channels` computation of src/ChannelGraph2.cpp: unlike
src/ChannelGraph.cpp, the no-conversion branch re-checks that the incoming
start channel is still a valid start. -/
def possibleStartChannels2 (g : Graph) (s w u uch : Nat) : List Nat :=
  if g.convertOf u || u = s then List.range (CHANNELS - w + 1)
  else if uch ≤ CHANNELS - w then [uch]
  else []

/-- Relaxation of one candidate start channel in src/ChannelGraph2.cpp:
already-visited target states are skipped before the cost computation. -/
def relaxChannel2 (w : Nat) (costs : List Nat) (v ccur : Nat) (u uch : Nat)
    (st : SState2) (ch : Nat) : SState2 :=
  if visAt st v ch then st
  else
    let channel_cost := calculateChannelCost costs ch w
    if channel_cost = INF then st
    else
      let new_cost := ccur + channel_cost
      if new_cost < distAt2 st v ch then
        ⟨(new_cost, v, ch) :: st.pq,
         set2 st.dist v ch new_cost,
         set2 st.prev v ch (some (u, uch)),
         st.visited⟩
      else st

/-- Relaxation of one adjacency-list edge of `u` in src/ChannelGraph2.cpp. -/
def relaxEdge2 (g : Graph) (s w u uch ccur : Nat) (st : SState2)
    (e : Nat × List Nat) : SState2 :=
  (possibleStartChannels2 g s w u uch).foldl (relaxChannel2 w e.2 e.1 ccur u uch) st

/-- The predecessor walk of `reconstructPath` in src/ChannelGraph2.cpp: each
visited physical node is recorded in `visited_nodes` and a repetition throws
`runtime_error`.  The list is produced target-first. -/
def reconWalk2 (p : List (List (Option (Nat × Nat)))) :
    Nat → Nat × Nat → List Nat → Except Err (Option (List (Nat × Nat)))
  | 0, _, _ => .ok none
  | fuel + 1, (v, ch), seen =>
    if v ∈ seen then .error .runtimeError
    else
      match ChannelGraph.prevAt p v ch with
      | none => .ok (some [(v, ch)])
      | some (u, chu) =>
        (reconWalk2 p fuel (u, chu) (v :: seen)).map
          (Option.map (fun rest => (v, ch) :: rest))

/-- `reconstructPath` from src/ChannelGraph2.cpp: walk the predecessor chain
rejecting duplicate nodes, reverse, and check that the path starts at the
source (otherwise `runtime_error`). -/
def reconstructPath2 (g : Graph) (p : List (List (Option (Nat × Nat))))
    (source target target_ch cost : Nat) :
    Except Err (Option (List (Nat × Nat) × Nat)) :=
  match reconWalk2 p (g.node_count * CHANNELS + 1) (target, target_ch) [] with
  | .error e => .error e
  | .ok none => .ok none
  | .ok (some path) =>
    let path' := path.reverse
    if (path'.headD (0, 0)).1 ≠ source then .error .runtimeError
    else .ok (some (path', cost))

/-- The `while (!pq.empty())` loop of `findShortestPath` in
src/ChannelGraph2.cpp: visited states are skipped on pop; the first
non-visited pop of the target triggers reconstruction. -/
def dijkstraLoop2 (g : Graph) (s t w : Nat) :
    Nat → SState2 → Except Err (Option (List (Nat × Nat) × Nat))
  | 0, _ => .ok none
  | fuel + 1, st =>
    match popMin st.pq with
    | none => .ok (some ([], INF))
    | some ((ccur, u, uch), pq') =>
      if visAt st u uch then
        dijkstraLoop2 g s t w fuel ⟨pq', st.dist, st.prev, st.visited⟩
      else
        let st1 : SState2 := ⟨pq', st.dist, st.prev, set2 st.visited u uch true⟩
        if u = t then
          reconstructPath2 g st1.prev s t uch ccur
        else
          dijkstraLoop2 g s t w fuel ((g.adjOf u).foldl (relaxEdge2 g s w u uch ccur) st1)

/-- One iteration of the source-initialisation loop of src/ChannelGraph2.cpp. -/
def initStep2 (s : Nat) (st : SState2) (ch : Nat) : SState2 :=
  ⟨st.pq ++ [(0, s, ch)], set2 st.dist s ch 0, st.prev, st.visited⟩

/-- The source initialisation of src/ChannelGraph2.cpp. -/
def initState2 (g : Graph) (s w : Nat) : SState2 :=
  (List.range (CHANNELS - w + 1)).foldl (initStep2 s)
    ⟨[], List.replicate g.node_count (List.replicate CHANNELS INF),
     List.replicate g.node_count (List.replicate CHANNELS none),
     List.replicate g.node_count (List.replicate CHANNELS false)⟩

/-- `findShortestPath` from src/ChannelGraph2.cpp. -/
def findShortestPath (g : Graph) (source target width : Int) (fuel : Nat) :
    Except Err (Option (List (Nat × Nat) × Nat)) :=
  if width < 1 ∨ width > 3 then
    .error .invalidArgument
  else if source < 0 ∨ source ≥ g.node_count ∨ target < 0 ∨ target ≥ g.node_count then
    .error .rangeError
  else
    dijkstraLoop2 g source.toNat target.toNat width.toNat fuel
      (initState2 g source.toNat width.toNat)

end ChannelGraph2

namespace OptimizedEfficientGraph

/-- `PrecomputedEdge` from src/OptimizedEfficientGraph.cpp: per-edge
precomputed segment costs for widths 1, 2 and 3. -/
structure PrecomputedEdge where
  toNode : Nat
  single_costs : List Nat
  double_costs : List Nat
  triple_costs : List Nat

/-- `getSegmentCost` from src/OptimizedEfficientGraph.cpp: the O(1) lookup
into the precomputed tables (`INT_MAX` for an unsupported width). -/
def getSegmentCost (e : PrecomputedEdge) (start_channel segment_size : Nat) : Nat :=
  if segment_size = 1 then e.single_costs.getD start_channel 0
  else if segment_size = 2 then e.double_costs.getD start_channel 0
  else if segment_size = 3 then e.triple_costs.getD start_channel 0
  else INF

/-- `precomputeEdge` from src/OptimizedEfficientGraph.cpp: copies the
single-channel costs and tabulates all 2- and 3-channel window sums. -/
def precomputeEdge (toNode : Nat) (costs : List Nat) : PrecomputedEdge :=
  ⟨toNode,
   costs,
   (List.range (CHANNELS - 1)).map (fun i => costs.getD i 0 + costs.getD (i + 1) 0),
   (List.range (CHANNELS - 2)).map
     (fun i => costs.getD i 0 + costs.getD (i + 1) 0 + costs.getD (i + 2) 0)⟩

/-- The new-segment expansion of `findMinCost` (both the `channel == 100`
branch and the restart branch): for every segment size 1..3 and every valid
start, a transition to last-consumed channel `start + seg_size - 1` paying the
precomputed segment cost. -/
def startCandidates (e : PrecomputedEdge) : List (Nat × Nat) :=
  (List.range 3).flatMap (fun k =>
    let seg_size := k + 1
    (List.range (CHANNELS - seg_size + 1)).map
      (fun start => (start + seg_size - 1, getSegmentCost e start seg_size)))

/-- The continue-current-sequence expansion of `findMinCost` (lines 114-126):
legal only while the next channel is within the spectrum, paying that single
channel's cost. -/
def continueCandidates (e : PrecomputedEdge) (channel : Nat) : List (Nat × Nat) :=
  if channel < CHANNELS - 1 then [(channel + 1, e.single_costs.getD (channel + 1) 0)]
  else []

/-- The full per-edge expansion of a started state `(u, channel ≠ 100)` in
`findMinCost` (src/OptimizedEfficientGraph.cpp lines 114-144): continue the
current run, and additionally restart a fresh segment only when `u` supports
switching or the run is at the spectrum boundary.  `sw` is
`supports_switch[u]`. -/
def expandStarted (sw : Bool) (e : PrecomputedEdge) (channel : Nat) : List (Nat × Nat) :=
  continueCandidates e channel ++
    (if sw || channel ≥ CHANNELS - 1 then startCandidates e else [])

end OptimizedEfficientGraph

namespace OptimizedEfficientGraph1

/-- The graph of src/OptimizedEfficientGraph1.cpp. -/
structure Graph1 where
  n : Nat
  supports_switch : List Bool
  adj : List (List (Nat × List Nat))
deriving DecidableEq

/-- The `OptimizedEfficientGraph(int node_count)` constructor. -/
def mkGraph1 (node_count : Nat) : Graph1 :=
  ⟨node_count, List.replicate node_count false, List.replicate node_count []⟩

/-- `setChannelSwitchSupport` from src/OptimizedEfficientGraph1.cpp: an
out-of-range node id is silently ignored (`if (node_id >= 0 && node_id < n)`),
no exception is thrown. -/
def setChannelSwitchSupport (g : Graph1) (node_id : Int) (supports : Bool) : Graph1 :=
  if 0 ≤ node_id ∧ node_id < g.n then
    ⟨g.n, g.supports_switch.set node_id.toNat supports, g.adj⟩
  else g

/-- `addEdge` from src/OptimizedEfficientGraph1.cpp: only the cost-vector
length is validated; the node ids are not range-checked. -/
def addEdge (g : Graph1) (u v : Nat) (cost_vector : List Nat) : Except Err Graph1 :=
  if cost_vector.length ≠ CHANNELS then .error .invalidArgument
  else
    let a1 := g.adj.set u (g.adj.getD u [] ++ [(v, cost_vector)])
    .ok ⟨g.n, g.supports_switch, a1.set v (a1.getD v [] ++ [(u, cost_vector)])⟩

/-- The backwards state walk of `reconstructPath` in
src/OptimizedEfficientGraph1.cpp (`STATE_COUNT = 101`): collect
`(state / STATE_COUNT, start_channel[state])` pairs following `prev_state`
links until the `-1` sentinel. -/
def reconWalk1 (prev_state : List (Option Nat)) (start_channel : List Int) :
    Nat → Nat → Option (List (Nat × Int))
  | 0, _ => none
  | fuel + 1, st =>
    let entry := (st / 101, start_channel.getD st (-1))
    match prev_state.getD st none with
    | none => some [entry]
    | some p => (reconWalk1 prev_state start_channel fuel p).map (fun r => entry :: r)

/-- `reconstructPath` from src/OptimizedEfficientGraph1.cpp: a `-1` final
state (unreachable target) yields the empty path as a normal return value;
otherwise the reversed state walk with the source and target entries
overridden to channel `-1`. -/
def reconstructPath (final_state : Option Nat) (prev_state : List (Option Nat))
    (start_channel : List Int) (source target : Nat) (fuel : Nat) :
    Option (List (Nat × Int)) :=
  match final_state with
  | none => some []
  | some fs =>
    (reconWalk1 prev_state start_channel fuel fs).map
      (fun rev => rev.reverse.map
        (fun q => if q.1 = source ∨ q.1 = target then (q.1, -1) else q))

end OptimizedEfficientGraph1

namespace OptimizedEfficientGraph3

/-- The search state of src/OptimizedEfficientGraph3.cpp (without the
per-lineage visited set, which plays no role in path reconstruction). -/
structure State where
  cost : Nat
  node : Int
  channel : Int
  consecutive : Int
deriving DecidableEq

/-- The reconstruction key of src/OptimizedEfficientGraph3.cpp:
`node * 1000 + channel * 10 + consecutive`. -/
def stateKey (node channel consecutive : Int) : Int :=
  node * 1000 + channel * 10 + consecutive

/-- `unordered_map::find` on the predecessor map. -/
def lookupPred (m : List (Int × State)) (k : Int) : Option State :=
  (m.find? (fun q => q.1 = k)).map Prod.snd

/-- The backwards walk of `reconstructPath` in
src/OptimizedEfficientGraph3.cpp: record the current state, stop quietly at
the source, and also stop quietly (`break`) when the predecessor key is
missing — no exception is ever signalled. -/
def reconWalkStates (pred : List (Int × State)) (source : Int) :
    Nat → State → Option (List State)
  | 0, _ => none
  | fuel + 1, cur =>
    if cur.node = source then some [cur]
    else
      match lookupPred pred (stateKey cur.node cur.channel cur.consecutive) with
      | none => some [cur]
      | some nxt => (reconWalkStates pred source fuel nxt).map (fun r => cur :: r)

/-- The per-state path entry emitted by `reconstructPath` in
src/OptimizedEfficientGraph3.cpp: the segment start channel
`channel - consecutive + 1` (or `-1` for the unstarted sentinel), overridden
to `-1` at the source and target. -/
def emitState (source target : Int) (st : State) : Int × Int :=
  let start_channel : Int := if st.channel = -1 then -1 else st.channel - st.consecutive + 1
  if st.node = source ∨ st.node = target then (st.node, -1) else (st.node, start_channel)

/-- `reconstructPath` from src/OptimizedEfficientGraph3.cpp: empty path for a
missing final state, otherwise the reversed state walk mapped through
`emitState`.  The function returns whatever the walk produced — a broken
predecessor chain yields a silently truncated path. -/
def reconstructPath (final_state : Option State) (predecessor : List (Int × State))
    (source target : Int) (fuel : Nat) : Option (List (Int × Int)) :=
  match final_state with
  | none => some []
  | some f =>
    (reconWalkStates predecessor source fuel f).map
      (fun rev => rev.reverse.map (emitState source target))

/-- `findMinCostPath` from src/OptimizedEfficientGraph3.cpp, lines 86-89: the
source-equals-target fast path returns `[(source, -1)]` before any search
state is created.  The remainder of the function (the visited-set Dijkstra
search over lines 91-200) is abstracted as the parameter `search`; the claims
settled here only concern the fast path, which returns without invoking it. -/
def findMinCostPath (source target : Int)
    (search : Int → Int → List (Int × Int)) : List (Int × Int) :=
  if source = target then [(source, -1)] else search source target

end OptimizedEfficientGraph3

namespace ChannelGraph

/-- Reachability of state `(v, ch)` from the source under the transition
semantics of `findShortestPath`: the source starts on any valid channel, and
each hop follows an adjacency edge, keeps the channel through a
non-converting non-source node, and pays a non-`INF` segment cost. -/
inductive Reach (g : Graph) (s w : Nat) : Nat → Nat → Prop where
  | start (ch : Nat) : ch + w ≤ CHANNELS → Reach g s w s ch
  | step (u chu v ch : Nat) (costs : List Nat) :
      Reach g s w u chu →
      (v, costs) ∈ g.adjOf u →
      ch + w ≤ CHANNELS →
      (g.convertOf u = false → u ≠ s → ch = chu) →
      calculateChannelCost costs ch w ≠ INF →
      Reach g s w v ch

/-- The cost encoded by a `(node, start-channel)` path: the sum, over
consecutive pairs, of the segment cost of a connecting edge at the channel
recorded for the arrival node. -/
def IsPathCost (g : Graph) (w : Nat) : List (Nat × Nat) → Nat → Prop
  | [], c => c = 0
  | [_], c => c = 0
  | (a, _) :: (b, chb) :: rest, c =>
      ∃ costs c2, (b, costs) ∈ g.adjOf a ∧
        calculateChannelCost costs chb w ≠ INF ∧
        IsPathCost g w ((b, chb) :: rest) c2 ∧
        c = calculateChannelCost costs chb w + c2

/-- Spectrum continuity of a path: around any intermediate non-converting hop
`a → b → c`, the start channel recorded at `c` (the segment used on edge
`(b, c)`) equals the one recorded at `b` (the segment used on edge `(a, b)`). -/
def ContinuityOK (g : Graph) (p : List (Nat × Nat)) : Prop :=
  ∀ l1 a b c l2, p = l1 ++ a :: b :: c :: l2 → g.convertOf b.1 = false → c.2 = b.2

/-- Every channel recorded in the path is a valid start channel for a
contiguous segment of the requested width. -/
def RangeOK (w : Nat) (p : List (Nat × Nat)) : Prop :=
  ∀ q ∈ p, q.2 + w ≤ CHANNELS

/-- The loop invariant of `findShortestPath`'s Dijkstra search, over the
explicit state `st` together with the ghost list `proc` of
already-processed (popped, non-stale, non-target) queue entries. -/
structure Inv (g : Graph) (s t w : Nat) (proc : List Entry) (st : SState) : Prop where
  shapeD : st.dist.length = g.node_count ∧ ∀ row ∈ st.dist, row.length = CHANNELS
  shapeP : st.prev.length = g.node_count ∧ ∀ row ∈ st.prev, row.length = CHANNELS
  distLe : ∀ v ch, get2 st.dist v ch INF ≤ INF
  procDist : ∀ e ∈ proc, get2 st.dist e.2.1 e.2.2 INF = e.1 ∧ e.1 < INF
  procNoTarget : ∀ e ∈ proc, e.2.1 ≠ t
  procMono : ∀ e ∈ proc, ∀ x ∈ st.pq, e.1 ≤ x.1
  pqRange : ∀ x ∈ st.pq, x.2.1 < g.node_count ∧ x.2.2 + w ≤ CHANNELS ∧ x.1 < INF
  pqDist : ∀ x ∈ st.pq, get2 st.dist x.2.1 x.2.2 INF ≤ x.1
  pqReach : ∀ x ∈ st.pq, Reach g s w x.2.1 x.2.2
  distFresh : ∀ v ch, get2 st.dist v ch INF ≠ INF →
      (get2 st.dist v ch INF, v, ch) ∈ st.pq ∨ ∃ c, (c, v, ch) ∈ proc
  srcDist : ∀ ch, ch + w ≤ CHANNELS → get2 st.dist s ch INF = 0
  srcPrev : ∀ ch, prevAt st.prev s ch = none
  distPrev : ∀ v ch, get2 st.dist v ch INF ≠ INF → prevAt st.prev v ch = none →
      v = s ∧ get2 st.dist v ch INF = 0 ∧ ch + w ≤ CHANNELS
  prevInv : ∀ v ch u chu, prevAt st.prev v ch = some (u, chu) →
      ∃ cu costs, (cu, u, chu) ∈ proc ∧ (v, costs) ∈ g.adjOf u ∧
        calculateChannelCost costs ch w ≠ INF ∧
        get2 st.dist v ch INF = cu + calculateChannelCost costs ch w ∧
        get2 st.dist v ch INF ≠ INF ∧
        (g.convertOf u = false → u ≠ s → ch = chu) ∧
        ch + w ≤ CHANNELS ∧ chu + w ≤ CHANNELS ∧ u < g.node_count

end ChannelGraph

namespace ChannelGraph2

/-- The channel-range invariant of the src/ChannelGraph2.cpp search loop:
every queued start channel and every channel recorded in the predecessor
table is a valid start channel for the requested width. -/
structure Inv2R (w : Nat) (st : SState2) : Prop where
  pqRange : ∀ x ∈ st.pq, x.2.2 + w ≤ CHANNELS
  prevRange : ∀ v ch u chu, ChannelGraph.prevAt st.prev v ch = some (u, chu) →
      ch + w ≤ CHANNELS ∧ chu + w ≤ CHANNELS

end ChannelGraph2

/-! Concrete inputs used by witnesses and counterexamples. -/

/-- Cost vector of the edge source-to-`a` in the duplicate-node graph: free on
channel 0, expensive elsewhere. -/
def eSA : List Nat := (List.replicate 100 9).set 0 0

/-- Cost vector of the edge `a`-to-`b` in the duplicate-node graph: free on
every channel. -/
def eAB : List Nat := List.replicate 100 0

/-- Cost vector of the edge `a`-to-target in the duplicate-node graph: free on
channel 1, expensive elsewhere. -/
def eAT : List Nat := (List.replicate 100 9).set 1 0

/-- A 4-node graph (exactly what `addEdge(3,1,eSA); addEdge(1,2,eAB);
addEdge(1,0,eAT)` builds, with node 2 conversion-capable): the cheapest
constrained route from node 3 to node 0 visits node 1 twice
(3 → 1 → 2 → 1 → 0), converting at node 2. -/
def gDup : Graph :=
  ⟨4,
   [[(1, eAT)],
    [(3, eSA), (2, eAB), (0, eAT)],
    [(1, eAB)],
    [(1, eSA)]],
   [false, false, true, false]⟩

/-- An all-zero cost vector. -/
def cZ : List Nat := List.replicate 100 0

/-- A 2-node graph with one zero-cost edge between nodes 0 and 1. -/
def gZ : Graph := ⟨2, [[(1, cZ)], [(0, cZ)]], [false, false]⟩

/-- A 1-node graph with no edges. -/
def g1n : Graph := mkGraph 1

/-- A 2-node graph with no edges: node 1 is unreachable from node 0. -/
def gNE : Graph := mkGraph 2

/-- A concrete predecessor table for `ChannelGraph2.reconstructPath2`:
state (0, channel 0) was reached from state (1, channel 0). -/
def pZ : List (List (Option (Nat × Nat))) :=
  set2 (List.replicate 2 (List.replicate 100 (none : Option (Nat × Nat)))) 0 0 (some (1, 0))

/-- A concrete winning terminal state for
`OptimizedEfficientGraph3.reconstructPath`: target node 2, last channel 0,
segment of width 1. -/
def stFinal3 : OptimizedEfficientGraph3.State := ⟨5, 2, 0, 1⟩

/-- A concrete predecessor map for `OptimizedEfficientGraph3.reconstructPath`
whose chain from `stFinal3` dead-ends at node 7 before reaching the source:
the key of the node-7 state is absent. -/
def pred3 : List (Int × OptimizedEfficientGraph3.State) := [(2001, ⟨3, 7, 4, 2⟩)]

/-- A 2-dimensional array has `n` rows of `m` cells each. -/
def Shape (n m : Nat) (d : List (List α)) : Prop :=
  d.length = n ∧ ∀ row ∈ d, row.length = m

/-! ### Basic lemmas: list access, the 2-dimensional array model -/

theorem getD_set_self {α : Type} (l : List α) (i : Nat) (x d : α) (h : i < l.length) :
    (l.set i x).getD i d = x := by
  rw [List.getD, List.get?_set_eq_of_lt x h]; rfl

theorem getD_set_ne {α : Type} (l : List α) (i j : Nat) (x d : α) (h : j ≠ i) :
    (l.set i x).getD j d = l.getD j d := by
  rw [List.getD, List.getD, List.get?_set_ne x l (Ne.symm h)]

theorem getD_replicate {α : Type} (n i : Nat) (x d : α) (h : i < n) :
    (List.replicate n x).getD i d = x := by
  rw [List.getD, List.get?_eq_get (by simpa using h)]; simp

theorem getD_replicate_ge {α : Type} (n i : Nat) (x d : α) (h : n ≤ i) :
    (List.replicate n x).getD i d = d := by
  rw [List.getD, List.get?_eq_none.2 (by simpa using h)]; rfl

theorem getD_map_range {α : Type} (f : Nat → α) (m i : Nat) (d : α) (h : i < m) :
    ((List.range m).map f).getD i d = f i := by
  rw [List.getD, List.get?_map, List.get?_eq_get (by simpa using h)]; simp

theorem getD_ge {α : Type} (l : List α) (i : Nat) (d : α) (h : l.length ≤ i) :
    l.getD i d = d := by
  rw [List.getD, List.get?_eq_none.2 h]; rfl

theorem getD_nil {α : Type} (i : Nat) (d : α) : ([] : List α).getD i d = d := rfl

theorem length_set2 {α : Type} (d : List (List α)) (i j : Nat) (x : α) :
    (set2 d i j x).length = d.length := by
  simp [set2]

theorem getD_mem {α : Type} (l : List α) (i : Nat) (d : α) (h : i < l.length) : l.getD i d ∈ l := by
  rw [List.getD, List.get?_eq_get h, Option.getD_some]
  exact List.get_mem l _ h

theorem shape_set2 {α : Type} {n m : Nat} {d : List (List α)} (hd : Shape n m d)
    (i j : Nat) (x : α) : Shape n m (set2 d i j x) := by
  obtain ⟨hlen, hrow⟩ := hd
  by_cases hi : i < d.length
  · refine ⟨by simp [set2, hlen], ?_⟩
    intro row hrowmem
    rcases List.mem_or_eq_of_mem_set hrowmem with h | h
    · exact hrow _ h
    · subst h
      rw [List.length_set]
      exact hrow _ (getD_mem d i [] hi)
  · unfold set2
    rw [List.set_eq_of_length_le (Nat.le_of_not_lt hi)]
    exact ⟨hlen, hrow⟩

theorem shape_replicate {α : Type} (n m : Nat) (x : α) :
    Shape n m (List.replicate n (List.replicate m x)) := by
  constructor
  · simp
  · intro row hrow
    rw [List.eq_of_mem_replicate hrow]
    simp

theorem get2_shape_oob {α : Type} {n m : Nat} {d : List (List α)} (hd : Shape n m d)
    {i j : Nat} (dflt : α) (h : ¬(i < n ∧ j < m)) : get2 d i j dflt = dflt := by
  obtain ⟨hlen, hrow⟩ := hd
  unfold get2
  by_cases hi : i < n
  · have hj : ¬ j < m := fun hj => h ⟨hi, hj⟩
    have hrl : (d.getD i []).length = m := hrow _ (getD_mem d i [] (by omega))
    exact getD_ge _ _ _ (by omega)
  · rw [getD_ge d i [] (by omega), getD_nil]

theorem get2_set2_self {α : Type} {n m : Nat} {d : List (List α)} (hd : Shape n m d)
    (i j : Nat) (x dflt : α) (hi : i < n) (hj : j < m) :
    get2 (set2 d i j x) i j dflt = x := by
  obtain ⟨hlen, hrow⟩ := hd
  have hrl : (d.getD i []).length = m := hrow _ (getD_mem d i [] (by omega))
  unfold get2 set2
  rw [getD_set_self _ _ _ _ (by omega), getD_set_self _ _ _ _ (by omega)]

theorem get2_set2_ne {α : Type} (d : List (List α)) (i j i' j' : Nat) (x dflt : α)
    (h : i' ≠ i ∨ j' ≠ j) : get2 (set2 d i j x) i' j' dflt = get2 d i' j' dflt := by
  unfold get2 set2
  by_cases hi : i' = i
  · subst hi
    have hj : j' ≠ j := h.resolve_left (by simp)
    by_cases hlen : i' < d.length
    · rw [getD_set_self _ _ _ _ hlen, getD_set_ne _ _ _ _ _ hj]
    · rw [List.set_eq_of_length_le (Nat.le_of_not_lt hlen)]
  · rw [getD_set_ne _ _ _ _ _ hi]

theorem get2_replicate2 {α : Type} (n m i j : Nat) (x dflt : α) :
    get2 (List.replicate n (List.replicate m x)) i j dflt =
      if i < n ∧ j < m then x else dflt := by
  unfold get2
  by_cases hi : i < n
  · rw [getD_replicate _ _ _ _ hi]
    by_cases hj : j < m
    · rw [getD_replicate _ _ _ _ hj]; simp [hi, hj]
    · rw [getD_replicate_ge _ _ _ _ (Nat.le_of_not_lt hj)]; simp [hj]
  · rw [getD_replicate_ge n i (List.replicate m x) [] (by simpa using Nat.le_of_not_lt hi), getD_nil]
    simp [hi]

theorem get2_set2_self_or {α : Type} (d : List (List α)) (i j : Nat) (x dflt : α) :
    get2 (set2 d i j x) i j dflt = x ∨ get2 (set2 d i j x) i j dflt = get2 d i j dflt := by
  by_cases hi : i < d.length
  · by_cases hj : j < (d.getD i []).length
    · left
      unfold get2 set2
      rw [getD_set_self _ _ _ _ hi, getD_set_self _ _ _ _ hj]
    · right
      unfold get2 set2
      rw [getD_set_self _ _ _ _ hi, List.set_eq_of_length_le (Nat.le_of_not_lt hj)]
  · right
    unfold get2 set2
    rw [List.set_eq_of_length_le (Nat.le_of_not_lt hi)]

/-- Invariant preservation through a left fold. -/
theorem foldl_preserve {α β : Type} {P : β → Prop} (f : β → α → β) :
    ∀ (l : List α) (b : β), (∀ b' a, a ∈ l → P b' → P (f b' a)) → P b → P (l.foldl f b)
  | [], _, _, hb => hb
  | a :: l, b, hstep, hb =>
    foldl_preserve f l (f b a) (fun b' a' ha' => hstep b' a' (List.mem_cons_of_mem _ ha'))
      (hstep b a (List.mem_cons_self _ _) hb)

/-! ### Lemmas about the priority-queue model -/

namespace ChannelGraph

theorem entryLe_refl (a : Entry) : entryLe a a = true := by
  simp [entryLe]

theorem entryLe_cost {a b : Entry} (h : entryLe a b = true) : a.1 ≤ b.1 := by
  simp [entryLe] at h
  rcases h with h | ⟨h, _⟩ <;> omega

theorem entryLe_trans {a b c : Entry} (h1 : entryLe a b = true) (h2 : entryLe b c = true) :
    entryLe a c = true := by
  simp [entryLe] at *
  omega

theorem entryLe_of_not_le {a b : Entry} (h : ¬ entryLe a b = true) : entryLe b a = true := by
  simp [entryLe] at *
  omega

theorem popMin_cons_isSome (e : Entry) (es : List Entry) : (popMin (e :: es)).isSome := by
  unfold popMin
  cases popMin es with
  | none => rfl
  | some pr =>
    obtain ⟨m, r⟩ := pr
    by_cases h : entryLe e m <;> simp [h]

theorem popMin_nonnil_ne_none (a : Entry) (as : List Entry) (hm : popMin (a :: as) = none) :
    False := by
  have hsome := popMin_cons_isSome a as
  rw [hm] at hsome
  simp at hsome

theorem popMin_perm : ∀ (l : List Entry) (m : Entry) (r : List Entry),
    popMin l = some (m, r) → l.Perm (m :: r)
  | [], m, r, h => by simp [popMin] at h
  | e :: es, m, r, h => by
    unfold popMin at h
    cases hm : popMin es with
    | none =>
      rw [hm] at h
      cases es with
      | nil =>
        simp only at h
        rw [Option.some.injEq, Prod.mk.injEq] at h
        obtain ⟨h1, h2⟩ := h
        subst h1; subst h2
        exact List.Perm.refl _
      | cons a as => exact absurd hm (fun hc => popMin_nonnil_ne_none a as hc)
    | some pr =>
      obtain ⟨m', r'⟩ := pr
      rw [hm] at h
      simp only at h
      by_cases hle : entryLe e m' = true
      · rw [if_pos hle, Option.some.injEq, Prod.mk.injEq] at h
        obtain ⟨h1, h2⟩ := h
        subst h1; subst h2
        exact List.Perm.refl _
      · rw [if_neg hle, Option.some.injEq, Prod.mk.injEq] at h
        obtain ⟨h1, h2⟩ := h
        subst h1; subst h2
        exact ((popMin_perm es m' r' hm).cons e).trans (List.Perm.swap m' e r')

theorem popMin_min : ∀ (l : List Entry) (m : Entry) (r : List Entry),
    popMin l = some (m, r) → ∀ x ∈ l, entryLe m x = true
  | [], m, r, h => by simp [popMin] at h
  | e :: es, m, r, h => by
    unfold popMin at h
    cases hm : popMin es with
    | none =>
      rw [hm] at h
      cases es with
      | nil =>
        simp only at h
        rw [Option.some.injEq, Prod.mk.injEq] at h
        obtain ⟨h1, h2⟩ := h
        subst h1; subst h2
        intro x hx
        rcases List.mem_singleton.1 hx with rfl
        exact entryLe_refl _
      | cons a as => exact absurd hm (fun hc => popMin_nonnil_ne_none a as hc)
    | some pr =>
      obtain ⟨m', r'⟩ := pr
      rw [hm] at h
      simp only at h
      by_cases hle : entryLe e m' = true
      · rw [if_pos hle, Option.some.injEq, Prod.mk.injEq] at h
        obtain ⟨h1, h2⟩ := h
        subst h1; subst h2
        intro x hx
        rcases List.mem_cons.1 hx with rfl | hx
        · exact entryLe_refl _
        · exact entryLe_trans hle (popMin_min es m' r' hm x hx)
      · rw [if_neg hle, Option.some.injEq, Prod.mk.injEq] at h
        obtain ⟨h1, h2⟩ := h
        subst h1; subst h2
        intro x hx
        rcases List.mem_cons.1 hx with rfl | hx
        · exact entryLe_of_not_le hle
        · exact popMin_min es m' r' hm x hx

theorem popMin_head (e : Entry) (l : List Entry) (h : ∀ x ∈ l, entryLe e x = true) :
    popMin (e :: l) = some (e, l) := by
  unfold popMin
  cases hm : popMin l with
  | none =>
    cases l with
    | nil => rfl
    | cons a as => exact absurd hm (fun hc => popMin_nonnil_ne_none a as hc)
  | some pr =>
    obtain ⟨m, r⟩ := pr
    have hmem : m ∈ l := ((popMin_perm l m r hm).symm.mem_iff).1 (List.mem_cons_self _ _)
    simp only
    rw [if_pos (h m hmem)]

/-! ### Characterisation of the initial search state -/

theorem initFold_pq (s : Nat) : ∀ (l : List Nat) (st : SState),
    (l.foldl (initStep s) st).pq = st.pq ++ l.map (fun ch => (0, s, ch))
  | [], st => by simp
  | c :: l, st => by
    rw [List.foldl_cons, initFold_pq s l]
    simp [initStep]

theorem initFold_prev (s : Nat) : ∀ (l : List Nat) (st : SState),
    (l.foldl (initStep s) st).prev = st.prev
  | [], _ => rfl
  | c :: l, st => by
    rw [List.foldl_cons, initFold_prev s l]
    rfl

theorem initFold_dist (s : Nat) {n : Nat} (hs : s < n) :
    ∀ (l : List Nat) (st : SState) (v ch : Nat), Shape n CHANNELS st.dist →
      (∀ c ∈ l, c < CHANNELS) →
      get2 (l.foldl (initStep s) st).dist v ch INF
        = if v = s ∧ ch ∈ l then 0 else get2 st.dist v ch INF
  | [], st, v, ch, hsh, hmem => by simp
  | c :: l, st, v, ch, hsh, hmem => by
    rw [List.foldl_cons,
      initFold_dist s hs l (initStep s st c) v ch
        (shape_set2 hsh s c 0)
        (fun c' hc' => hmem c' (List.mem_cons_of_mem _ hc'))]
    have hstep : (initStep s st c).dist = set2 st.dist s c 0 := rfl
    by_cases hv : v = s
    · subst hv
      by_cases hl : ch ∈ l
      · rw [if_pos ⟨rfl, hl⟩, if_pos ⟨rfl, List.mem_cons_of_mem _ hl⟩]
      · rw [if_neg (fun hc => hl hc.2)]
        by_cases hc : ch = c
        · subst hc
          rw [hstep, get2_set2_self hsh v ch 0 INF hs (hmem ch (List.mem_cons_self _ _)),
            if_pos ⟨rfl, List.mem_cons_self _ _⟩]
        · rw [hstep, get2_set2_ne st.dist v c v ch 0 INF (Or.inr hc),
            if_neg (by simp only [List.mem_cons]; tauto)]
    · rw [if_neg (fun hc => hv hc.1), if_neg (fun hc => hv hc.1), hstep,
        get2_set2_ne st.dist s c v ch 0 INF (Or.inl hv)]

theorem initState_pq (g : Graph) (s w : Nat) :
    (initState g s w).pq = (List.range (CHANNELS - w + 1)).map (fun ch => (0, s, ch)) := by
  unfold initState
  rw [initFold_pq]
  simp

theorem initState_prev (g : Graph) (s w : Nat) :
    (initState g s w).prev = List.replicate g.node_count (List.replicate CHANNELS none) := by
  unfold initState
  rw [initFold_prev]

theorem initState_dist (g : Graph) (s w : Nat) (hs : s < g.node_count) (hw : 1 ≤ w)
    (v ch : Nat) :
    get2 (initState g s w).dist v ch INF
      = if v = s ∧ ch < CHANNELS - w + 1 then 0 else INF := by
  unfold initState
  rw [initFold_dist s hs _ _ v ch (shape_replicate _ _ _)
    (fun c hc => by
      have h1 := List.mem_range.1 hc
      have hC : (0 : Nat) < CHANNELS := by norm_num [CHANNELS]
      omega)]
  rw [get2_replicate2]
  simp [List.mem_range]

theorem initState_dist_shape (g : Graph) (s w : Nat) :
    Shape g.node_count CHANNELS (initState g s w).dist := by
  unfold initState
  refine foldl_preserve (P := fun st => Shape g.node_count CHANNELS st.dist) (initStep s) _ _
    (fun st c _ hsh => shape_set2 hsh s c 0) ?_
  exact shape_replicate _ _ _

theorem initState_prev_shape (g : Graph) (s w : Nat) :
    Shape g.node_count CHANNELS (initState g s w).prev := by
  rw [initState_prev]
  exact shape_replicate _ _ _

theorem prevAt_replicate_none (n m v ch : Nat) :
    prevAt (List.replicate n (List.replicate m none)) v ch = none := by
  unfold prevAt
  rw [get2_replicate2]
  simp

theorem reconWalk_none (p : List (List (Option (Nat × Nat)))) (fuel : Nat) (v ch : Nat)
    (h : prevAt p v ch = none) : reconWalk p (fuel + 1) (v, ch) = some [(v, ch)] := by
  unfold reconWalk
  rw [h]

end ChannelGraph

/-! ### Reconstruction soundness for src/ChannelGraph2.cpp -/

namespace ChannelGraph2

theorem reconWalk2_nodup (p : List (List (Option (Nat × Nat)))) :
    ∀ (fuel : Nat) (v ch : Nat) (seen : List Nat) (wl : List (Nat × Nat)),
      reconWalk2 p fuel (v, ch) seen = .ok (some wl) →
      (wl.map Prod.fst).Nodup ∧ ∀ x ∈ wl, x.1 ∉ seen
  | 0, v, ch, seen, wl, h => by simp [reconWalk2] at h
  | fuel + 1, v, ch, seen, wl, h => by
    unfold reconWalk2 at h
    by_cases hseen : v ∈ seen
    · rw [if_pos hseen] at h
      cases h
    · rw [if_neg hseen] at h
      cases hp : ChannelGraph.prevAt p v ch with
      | none =>
        rw [hp] at h
        simp only at h
        rw [Except.ok.injEq, Option.some.injEq] at h
        subst h
        refine ⟨by simp, ?_⟩
        intro x hx
        rcases List.mem_singleton.1 hx with rfl
        exact hseen
      | some q =>
        obtain ⟨u, chu⟩ := q
        rw [hp] at h
        simp only at h
        cases hin : reconWalk2 p fuel (u, chu) (v :: seen) with
        | error e => rw [hin] at h; cases h
        | ok o =>
          cases o with
          | none => rw [hin] at h; cases h
          | some rest =>
            rw [hin] at h
            simp only [Except.map, Option.map] at h
            rw [Except.ok.injEq, Option.some.injEq] at h
            subst h
            obtain ⟨hnd, hns⟩ := reconWalk2_nodup p fuel u chu (v :: seen) rest hin
            refine ⟨?_, ?_⟩
            · simp only [List.map_cons, List.nodup_cons]
              refine ⟨?_, hnd⟩
              intro hv
              obtain ⟨x, hx, hxv⟩ := List.mem_map.1 hv
              exact hns x hx (hxv ▸ List.mem_cons_self _ _)
            · intro x hx
              rcases List.mem_cons.1 hx with rfl | hx
              · exact hseen
              · exact fun hc => hns x hx (List.mem_cons_of_mem _ hc)

theorem reconWalk2_range {w : Nat} (p : List (List (Option (Nat × Nat))))
    (hpr : ∀ v ch u chu, ChannelGraph.prevAt p v ch = some (u, chu) →
      ch + w ≤ CHANNELS ∧ chu + w ≤ CHANNELS) :
    ∀ (fuel : Nat) (v ch : Nat) (seen : List Nat) (wl : List (Nat × Nat)),
      reconWalk2 p fuel (v, ch) seen = .ok (some wl) →
      ch + w ≤ CHANNELS → ∀ q ∈ wl, q.2 + w ≤ CHANNELS
  | 0, v, ch, seen, wl, h, _ => by simp [reconWalk2] at h
  | fuel + 1, v, ch, seen, wl, h, hch => by
    unfold reconWalk2 at h
    by_cases hseen : v ∈ seen
    · rw [if_pos hseen] at h
      cases h
    · rw [if_neg hseen] at h
      cases hp : ChannelGraph.prevAt p v ch with
      | none =>
        rw [hp] at h
        simp only at h
        rw [Except.ok.injEq, Option.some.injEq] at h
        subst h
        intro q hq
        rcases List.mem_singleton.1 hq with rfl
        exact hch
      | some q0 =>
        obtain ⟨u, chu⟩ := q0
        rw [hp] at h
        simp only at h
        cases hin : reconWalk2 p fuel (u, chu) (v :: seen) with
        | error e => rw [hin] at h; cases h
        | ok o =>
          cases o with
          | none => rw [hin] at h; cases h
          | some rest =>
            rw [hin] at h
            simp only [Except.map, Option.map] at h
            rw [Except.ok.injEq, Option.some.injEq] at h
            subst h
            intro q hq
            rcases List.mem_cons.1 hq with rfl | hq
            · exact hch
            · exact reconWalk2_range p hpr fuel u chu (v :: seen) rest hin
                (hpr v ch u chu hp).2 q hq

theorem reconstructPath2_ok_sound (g : Graph) (p : List (List (Option (Nat × Nat))))
    (source target tch cost : Nat) (path : List (Nat × Nat)) (c : Nat)
    (hok : reconstructPath2 g p source target tch cost = .ok (some (path, c))) :
    (path.map Prod.fst).Nodup ∧ (path.headD (0, 0)).1 = source ∧ c = cost ∧
    ∃ wl, reconWalk2 p (g.node_count * CHANNELS + 1) (target, tch) [] = .ok (some wl) ∧
      path = wl.reverse := by
  unfold reconstructPath2 at hok
  cases hw : reconWalk2 p (g.node_count * CHANNELS + 1) (target, tch) [] with
  | error e => rw [hw] at hok; cases hok
  | ok o =>
    cases o with
    | none => rw [hw] at hok; cases hok
    | some wl =>
      rw [hw] at hok
      simp only at hok
      by_cases hhead : (wl.reverse.headD (0, 0)).1 ≠ source
      · rw [if_pos hhead] at hok
        cases hok
      · rw [if_neg hhead] at hok
        rw [Except.ok.injEq, Option.some.injEq, Prod.mk.injEq] at hok
        obtain ⟨h1, h2⟩ := hok
        subst h1; subst h2
        obtain ⟨hnd, _⟩ := reconWalk2_nodup p _ target tch [] wl hw
        refine ⟨?_, not_ne_iff.1 hhead, rfl, wl, rfl, rfl⟩
        rw [List.map_reverse]
        exact List.nodup_reverse.2 hnd

theorem possibleStartChannels2_range {g : Graph} {s w u uch : Nat} (hw1 : 1 ≤ w)
    (hwC : w ≤ CHANNELS) :
    ∀ ch ∈ possibleStartChannels2 g s w u uch, ch + w ≤ CHANNELS := by
  intro ch hch
  unfold possibleStartChannels2 at hch
  by_cases hc : g.convertOf u || u = s
  · rw [if_pos hc] at hch
    have h1 := List.mem_range.1 hch
    omega
  · rw [if_neg hc] at hch
    by_cases hb : uch ≤ CHANNELS - w
    · rw [if_pos hb] at hch
      rcases List.mem_singleton.1 hch with rfl
      omega
    · rw [if_neg hb] at hch
      cases hch

theorem relaxChannel2_inv2 {w : Nat} {costs : List Nat} {v ccur u uch : Nat} {st : SState2}
    (hInv : Inv2R w st) {ch : Nat} (hch : ch + w ≤ CHANNELS) (huch : uch + w ≤ CHANNELS) :
    Inv2R w (relaxChannel2 w costs v ccur u uch st ch) := by
  unfold relaxChannel2
  by_cases h1 : visAt st v ch
  · rw [if_pos h1]; exact hInv
  · rw [if_neg h1]
    by_cases h2 : calculateChannelCost costs ch w = INF
    · rw [if_pos h2]; exact hInv
    · rw [if_neg h2]
      by_cases h3 : ccur + calculateChannelCost costs ch w < distAt2 st v ch
      · rw [if_pos h3]
        constructor
        · intro x hx
          rcases List.mem_cons.1 hx with rfl | hx
          · exact hch
          · exact hInv.pqRange x hx
        · intro v' ch' u' chu' hlink
          by_cases hsame : v' = v ∧ ch' = ch
          · obtain ⟨rfl, rfl⟩ := hsame
            rcases get2_set2_self_or st.prev v' ch' (some (u, uch)) none with hself | hold
            · have hself' : ChannelGraph.prevAt (set2 st.prev v' ch' (some (u, uch))) v' ch'
                  = some (u, uch) := hself
              rw [hself'] at hlink
              rw [Option.some.injEq, Prod.mk.injEq] at hlink
              obtain ⟨rfl, rfl⟩ := hlink
              exact ⟨hch, huch⟩
            · have hold' : ChannelGraph.prevAt (set2 st.prev v' ch' (some (u, uch))) v' ch'
                  = ChannelGraph.prevAt st.prev v' ch' := hold
              rw [hold'] at hlink
              exact hInv.prevRange v' ch' u' chu' hlink
          · have hne : ChannelGraph.prevAt (set2 st.prev v ch (some (u, uch))) v' ch'
                = ChannelGraph.prevAt st.prev v' ch' :=
              get2_set2_ne st.prev v ch v' ch' _ none (by tauto)
            rw [hne] at hlink
            exact hInv.prevRange v' ch' u' chu' hlink
      · rw [if_neg h3]; exact hInv

theorem relaxAll2_inv2 {g : Graph} {s w : Nat} {st : SState2} (hw1 : 1 ≤ w)
    (hwC : w ≤ CHANNELS) (hInv : Inv2R w st) {u uch ccur : Nat}
    (huch : uch + w ≤ CHANNELS) :
    Inv2R w ((g.adjOf u).foldl (relaxEdge2 g s w u uch ccur) st) := by
  refine foldl_preserve (P := Inv2R w) _ _ _ ?_ hInv
  intro st' e _ hInv'
  unfold relaxEdge2
  refine foldl_preserve (P := Inv2R w) _ _ _ ?_ hInv'
  intro st'' ch hch hInv''
  exact relaxChannel2_inv2 hInv'' (possibleStartChannels2_range hw1 hwC ch hch) huch

theorem dijkstraLoop2_shape {g : Graph} {s t w : Nat} :
    ∀ (fuel : Nat) (st : SState2) (p : List (Nat × Nat)) (c : Nat),
      dijkstraLoop2 g s t w fuel st = .ok (some (p, c)) →
      (p = [] ∧ c = INF) ∨ ((p.map Prod.fst).Nodup ∧ (p.headD (0, 0)).1 = s)
  | 0, st, p, c, h => by simp [dijkstraLoop2] at h
  | fuel + 1, st, p, c, h => by
    unfold dijkstraLoop2 at h
    cases hpop : ChannelGraph.popMin st.pq with
    | none =>
      rw [hpop] at h
      simp only at h
      rw [Except.ok.injEq, Option.some.injEq, Prod.mk.injEq] at h
      exact Or.inl ⟨h.1.symm, h.2.symm⟩
    | some pr =>
      obtain ⟨⟨ccur, u, uch⟩, pq'⟩ := pr
      rw [hpop] at h
      simp only at h
      by_cases hvis : visAt st u uch
      · rw [if_pos hvis] at h
        exact dijkstraLoop2_shape fuel _ p c h
      · rw [if_neg hvis] at h
        by_cases hut : u = t
        · rw [if_pos hut] at h
          obtain ⟨hnd, hhead, _, _⟩ := reconstructPath2_ok_sound g _ s t uch ccur p c h
          exact Or.inr ⟨hnd, hhead⟩
        · rw [if_neg hut] at h
          exact dijkstraLoop2_shape fuel _ p c h

theorem dijkstraLoop2_range {g : Graph} {s t w : Nat} (hw1 : 1 ≤ w) (hwC : w ≤ CHANNELS) :
    ∀ (fuel : Nat) (st : SState2) (p : List (Nat × Nat)) (c : Nat),
      Inv2R w st →
      dijkstraLoop2 g s t w fuel st = .ok (some (p, c)) →
      ∀ q ∈ p, q.2 + w ≤ CHANNELS
  | 0, st, p, c, hInv, h => by simp [dijkstraLoop2] at h
  | fuel + 1, st, p, c, hInv, h => by
    unfold dijkstraLoop2 at h
    cases hpop : ChannelGraph.popMin st.pq with
    | none =>
      rw [hpop] at h
      simp only at h
      rw [Except.ok.injEq, Option.some.injEq, Prod.mk.injEq] at h
      intro q hq
      rw [← h.1] at hq
      cases hq
    | some pr =>
      obtain ⟨⟨ccur, u, uch⟩, pq'⟩ := pr
      rw [hpop] at h
      simp only at h
      have hperm := ChannelGraph.popMin_perm _ _ _ hpop
      have hmemo : ∀ x ∈ pq', x ∈ st.pq := fun x hx =>
        hperm.mem_iff.2 (List.mem_cons_of_mem _ hx)
      have hpmem : (ccur, u, uch) ∈ st.pq := hperm.mem_iff.2 (List.mem_cons_self _ _)
      by_cases hvis : visAt st u uch
      · rw [if_pos hvis] at h
        exact dijkstraLoop2_range hw1 hwC fuel ⟨pq', st.dist, st.prev, st.visited⟩ p c
          ⟨fun x hx => hInv.pqRange x (hmemo x hx), hInv.prevRange⟩ h
      · rw [if_neg hvis] at h
        by_cases hut : u = t
        · rw [if_pos hut] at h
          obtain ⟨_, _, _, wl, hwk, rfl⟩ := reconstructPath2_ok_sound g _ s t uch ccur p c h
          have huch : uch + w ≤ CHANNELS := hInv.pqRange _ hpmem
          intro q hq
          exact reconWalk2_range st.prev hInv.prevRange _ t uch [] wl hwk huch q
            (List.mem_reverse.1 hq)
        · rw [if_neg hut] at h
          have huch : uch + w ≤ CHANNELS := hInv.pqRange _ hpmem
          have hInv1 : Inv2R w (⟨pq', st.dist, st.prev, set2 st.visited u uch true⟩ : SState2) :=
            ⟨fun x hx => hInv.pqRange x (hmemo x hx), hInv.prevRange⟩
          exact dijkstraLoop2_range hw1 hwC fuel _ p c
            (relaxAll2_inv2 hw1 hwC hInv1 huch) h

theorem initFold2_pq (s : Nat) : ∀ (l : List Nat) (st : SState2),
    (l.foldl (initStep2 s) st).pq = st.pq ++ l.map (fun ch => (0, s, ch))
  | [], st => by simp
  | c :: l, st => by
    rw [List.foldl_cons, initFold2_pq s l]
    simp [initStep2]

theorem initFold2_prev (s : Nat) : ∀ (l : List Nat) (st : SState2),
    (l.foldl (initStep2 s) st).prev = st.prev
  | [], _ => rfl
  | c :: l, st => by
    rw [List.foldl_cons, initFold2_prev s l]
    rfl

theorem inv2_init (g : Graph) (s w : Nat) (hw1 : 1 ≤ w) (hwC : w ≤ CHANNELS) :
    Inv2R w (initState2 g s w) := by
  constructor
  · intro x hx
    rw [show (initState2 g s w).pq
        = (List.range (CHANNELS - w + 1)).map (fun ch => ((0 : Nat), s, ch)) by
      unfold initState2
      rw [initFold2_pq]
      simp] at hx
    obtain ⟨ch, hch, rfl⟩ := List.mem_map.1 hx
    have h1 := List.mem_range.1 hch
    show ch + w ≤ CHANNELS
    omega
  · intro v ch u chu hlink
    rw [show (initState2 g s w).prev
        = List.replicate g.node_count (List.replicate CHANNELS none) by
      unfold initState2
      rw [initFold2_prev]] at hlink
    rw [ChannelGraph.prevAt_replicate_none] at hlink
    cases hlink

end ChannelGraph2

/-! ### Invariant preservation for the src/ChannelGraph.cpp search -/

theorem get2_set2_eq_ite {α : Type} {n m : Nat} {d : List (List α)} (hd : Shape n m d)
    (i j i' j' : Nat) (x dflt : α) (hi : i < n) (hj : j < m) :
    get2 (set2 d i j x) i' j' dflt = if i' = i ∧ j' = j then x else get2 d i' j' dflt := by
  by_cases h : i' = i ∧ j' = j
  · obtain ⟨rfl, rfl⟩ := h
    rw [if_pos ⟨rfl, rfl⟩]
    exact get2_set2_self hd i' j' x dflt hi hj
  · rw [if_neg h]
    exact get2_set2_ne d i j i' j' x dflt (by tauto)

theorem calculateChannelCost_ne_INF_range {costs : List Nat} {ch w : Nat}
    (h : calculateChannelCost costs ch w ≠ INF) : ch + w ≤ CHANNELS := by
  unfold calculateChannelCost at h
  by_cases hc : ch + w > CHANNELS
  · rw [if_pos hc] at h
    exact absurd rfl h
  · omega

theorem WF_adjOf {g : Graph} (hWF : g.WF) {u : Nat} (hu : u < g.node_count)
    {v : Nat} {costs : List Nat} (hedge : (v, costs) ∈ g.adjOf u) :
    v < g.node_count ∧ costs.length = CHANNELS := by
  obtain ⟨hlen, _, hadj⟩ := hWF
  exact hadj _ (getD_mem g.adj_list u [] (by omega)) _ hedge

namespace ChannelGraph

theorem possibleStartChannels_mem {g : Graph} {s w u uch : Nat} (hw1 : 1 ≤ w)
    (hwC : w ≤ CHANNELS) (huch : uch + w ≤ CHANNELS) :
    ∀ ch ∈ possibleStartChannels g s w u uch,
      ch + w ≤ CHANNELS ∧ (g.convertOf u = false → u ≠ s → ch = uch) := by
  intro ch hch
  unfold possibleStartChannels at hch
  by_cases hc : g.convertOf u || u = s
  · rw [if_pos hc] at hch
    have h1 := List.mem_range.1 hch
    refine ⟨by omega, ?_⟩
    intro hconv hus
    rw [hconv] at hc
    simp at hc
    exact absurd hc hus
  · rw [if_neg hc] at hch
    rcases List.mem_singleton.1 hch with rfl
    exact ⟨huch, fun _ _ => rfl⟩

theorem relaxChannel_inv {g : Graph} {s t w : Nat} {proc : List Entry} {st : SState}
    (hWF : g.WF) (hw1 : 1 ≤ w) (hInv : Inv g s t w proc st)
    {u uch ccur : Nat} (hproc : ∀ e ∈ proc, e.1 ≤ ccur)
    (hcu : (ccur, u, uch) ∈ proc)
    (hu : u < g.node_count) (huch : uch + w ≤ CHANNELS) (hreach : Reach g s w u uch)
    {v : Nat} {costs : List Nat} (hedge : (v, costs) ∈ g.adjOf u)
    {ch : Nat} (hch : ch + w ≤ CHANNELS)
    (hcont : g.convertOf u = false → u ≠ s → ch = uch) :
    Inv g s t w proc (relaxChannel w costs v ccur u uch st ch) := by
  unfold relaxChannel
  by_cases hcc : calculateChannelCost costs ch w = INF
  · rw [if_pos hcc]
    exact hInv
  · rw [if_neg hcc]
    by_cases hlt : ccur + calculateChannelCost costs ch w < distAt st v ch
    case neg => rw [if_neg hlt]; exact hInv
    case pos =>
      rw [if_pos hlt]
      have hv : v < g.node_count := (WF_adjOf hWF hu hedge).1
      have hchm : ch < CHANNELS := by omega
      have hnc : ccur + calculateChannelCost costs ch w < INF := by
        have := hInv.distLe v ch
        unfold distAt at hlt
        omega
      have hdite : ∀ v' ch' : Nat,
          get2 (set2 st.dist v ch (ccur + calculateChannelCost costs ch w)) v' ch' INF
            = if v' = v ∧ ch' = ch then ccur + calculateChannelCost costs ch w
              else get2 st.dist v' ch' INF :=
        fun v' ch' => get2_set2_eq_ite hInv.shapeD v ch v' ch' _ INF hv hchm
      have hpite : ∀ v' ch' : Nat,
          prevAt (set2 st.prev v ch (some (u, uch))) v' ch'
            = if v' = v ∧ ch' = ch then some (u, uch) else prevAt st.prev v' ch' :=
        fun v' ch' => get2_set2_eq_ite hInv.shapeP v ch v' ch' _ none hv hchm
      have hdold : distAt st v ch = get2 st.dist v ch INF := rfl
      constructor
      case shapeD => exact shape_set2 hInv.shapeD v ch _
      case shapeP => exact shape_set2 hInv.shapeP v ch _
      case distLe =>
        intro v' ch'
        rw [hdite]
        by_cases h : v' = v ∧ ch' = ch
        · rw [if_pos h]; omega
        · rw [if_neg h]; exact hInv.distLe v' ch'
      case procDist =>
        intro e he
        rw [hdite]
        by_cases h : e.2.1 = v ∧ e.2.2 = ch
        · exfalso
          obtain ⟨hd, hinf⟩ := hInv.procDist e he
          have h1 := hproc e he
          rw [hdold, ← h.1, ← h.2, hd] at hlt
          omega
        · rw [if_neg h]; exact hInv.procDist e he
      case procNoTarget => exact hInv.procNoTarget
      case procMono =>
        intro e he x hx
        rcases List.mem_cons.1 hx with rfl | hx
        · have := hproc e he; simp; omega
        · exact hInv.procMono e he x hx
      case pqRange =>
        intro x hx
        rcases List.mem_cons.1 hx with rfl | hx
        · exact ⟨hv, hch, hnc⟩
        · exact hInv.pqRange x hx
      case pqDist =>
        intro x hx
        rcases List.mem_cons.1 hx with rfl | hx
        · rw [hdite, if_pos ⟨rfl, rfl⟩]
        · rw [hdite]
          by_cases h : x.2.1 = v ∧ x.2.2 = ch
          · rw [if_pos h]
            have hxd := hInv.pqDist x hx
            rw [h.1, h.2] at hxd
            rw [hdold] at hlt
            omega
          · rw [if_neg h]; exact hInv.pqDist x hx
      case pqReach =>
        intro x hx
        rcases List.mem_cons.1 hx with rfl | hx
        · exact Reach.step u uch v ch costs hreach hedge hch hcont hcc
        · exact hInv.pqReach x hx
      case distFresh =>
        intro v' ch' hne
        rw [hdite] at hne ⊢
        by_cases h : v' = v ∧ ch' = ch
        · obtain ⟨rfl, rfl⟩ := h
          rw [if_pos ⟨rfl, rfl⟩]
          exact Or.inl (List.mem_cons_self _ _)
        · rw [if_neg h] at hne ⊢
          rcases hInv.distFresh v' ch' hne with hin | hpr
          · exact Or.inl (List.mem_cons_of_mem _ hin)
          · exact Or.inr hpr
      case srcDist =>
        intro ch0 hch0
        rw [hdite]
        by_cases h : s = v ∧ ch0 = ch
        · exfalso
          have h0 := hInv.srcDist ch0 hch0
          rw [hdold, ← h.1, ← h.2, h0] at hlt
          omega
        · rw [if_neg h]; exact hInv.srcDist ch0 hch0
      case srcPrev =>
        intro ch0
        rw [hpite]
        by_cases h : s = v ∧ ch0 = ch
        · exfalso
          have h0 := hInv.srcDist ch (by omega)
          rw [hdold, ← h.1, h0] at hlt
          omega
        · rw [if_neg h]; exact hInv.srcPrev ch0
      case distPrev =>
        intro v' ch' hne hpnone
        rw [hpite] at hpnone
        rw [hdite] at hne ⊢
        by_cases h : v' = v ∧ ch' = ch
        · rw [if_pos h] at hpnone; cases hpnone
        · rw [if_neg h] at hpnone hne ⊢
          exact hInv.distPrev v' ch' hne hpnone
      case prevInv =>
        intro v' ch' u' chu' hplink
        rw [hpite] at hplink
        rw [hdite]
        by_cases h : v' = v ∧ ch' = ch
        · rw [if_pos h] at hplink ⊢
          obtain ⟨rfl, rfl⟩ := h
          rw [Option.some.injEq, Prod.mk.injEq] at hplink
          obtain ⟨rfl, rfl⟩ := hplink
          exact ⟨ccur, costs, hcu, hedge, hcc, rfl, by omega, hcont, hch, huch, hu⟩
        · rw [if_neg h] at hplink ⊢
          exact hInv.prevInv v' ch' u' chu' hplink

theorem relaxEdge_inv {g : Graph} {s t w : Nat} {proc : List Entry} {st : SState}
    (hWF : g.WF) (hw1 : 1 ≤ w) (hwC : w ≤ CHANNELS) (hInv : Inv g s t w proc st)
    {u uch ccur : Nat} (hproc : ∀ e ∈ proc, e.1 ≤ ccur)
    (hcu : (ccur, u, uch) ∈ proc)
    (hu : u < g.node_count) (huch : uch + w ≤ CHANNELS) (hreach : Reach g s w u uch)
    {e : Nat × List Nat} (hedge : e ∈ g.adjOf u) :
    Inv g s t w proc (relaxEdge g s w u uch ccur st e) := by
  unfold relaxEdge
  refine foldl_preserve (P := Inv g s t w proc) _ _ _ ?_ hInv
  intro st' ch hch hInv'
  obtain ⟨hrange, hcont⟩ := possibleStartChannels_mem hw1 hwC huch ch hch
  have hedge' : (e.1, e.2) ∈ g.adjOf u := by
    have : (e.1, e.2) = e := rfl
    rw [this]
    exact hedge
  exact relaxChannel_inv hWF hw1 hInv' hproc hcu hu huch hreach hedge' hrange hcont

theorem relaxAll_inv {g : Graph} {s t w : Nat} {proc : List Entry} {st : SState}
    (hWF : g.WF) (hw1 : 1 ≤ w) (hwC : w ≤ CHANNELS) (hInv : Inv g s t w proc st)
    {u uch ccur : Nat} (hproc : ∀ e ∈ proc, e.1 ≤ ccur)
    (hcu : (ccur, u, uch) ∈ proc)
    (hu : u < g.node_count) (huch : uch + w ≤ CHANNELS) (hreach : Reach g s w u uch) :
    Inv g s t w proc ((g.adjOf u).foldl (relaxEdge g s w u uch ccur) st) := by
  refine foldl_preserve (P := Inv g s t w proc) _ _ _ ?_ hInv
  intro st' e hedge hInv'
  exact relaxEdge_inv hWF hw1 hwC hInv' hproc hcu hu huch hreach hedge

theorem inv_init {g : Graph} {s t w : Nat} (hWF : g.WF) (hw1 : 1 ≤ w) (hwC : w ≤ CHANNELS)
    (hs : s < g.node_count) :
    Inv g s t w [] (initState g s w) := by
  have hdist := initState_dist g s w hs hw1
  have hpq := initState_pq g s w
  have hprev := initState_prev g s w
  constructor
  case shapeD => exact initState_dist_shape g s w
  case shapeP => exact initState_prev_shape g s w
  case distLe =>
    intro v ch
    rw [hdist]
    by_cases h : v = s ∧ ch < CHANNELS - w + 1
    · rw [if_pos h]; unfold INF; omega
    · rw [if_neg h]
  case procDist => intro e he; cases he
  case procNoTarget => intro e he; cases he
  case procMono => intro e he; cases he
  case pqRange =>
    intro x hx
    rw [hpq] at hx
    obtain ⟨ch, hch, rfl⟩ := List.mem_map.1 hx
    have h1 := List.mem_range.1 hch
    refine ⟨hs, ?_, ?_⟩
    · show ch + w ≤ CHANNELS
      omega
    · show (0 : Nat) < INF
      unfold INF
      omega
  case pqDist =>
    intro x hx
    rw [hpq] at hx
    obtain ⟨ch, hch, rfl⟩ := List.mem_map.1 hx
    have h1 := List.mem_range.1 hch
    show get2 (initState g s w).dist s ch INF ≤ 0
    rw [hdist, if_pos ⟨rfl, by omega⟩]
  case pqReach =>
    intro x hx
    rw [hpq] at hx
    obtain ⟨ch, hch, rfl⟩ := List.mem_map.1 hx
    have h1 := List.mem_range.1 hch
    exact Reach.start ch (by omega)
  case distFresh =>
    intro v ch hne
    rw [hdist] at hne ⊢
    by_cases h : v = s ∧ ch < CHANNELS - w + 1
    · rw [if_pos h]
      obtain ⟨rfl, hlt⟩ := h
      refine Or.inl ?_
      rw [hpq]
      exact List.mem_map.2 ⟨ch, List.mem_range.2 hlt, rfl⟩
    · rw [if_neg h] at hne
      exact absurd rfl hne
  case srcDist =>
    intro ch hch
    rw [hdist, if_pos ⟨rfl, by omega⟩]
  case srcPrev =>
    intro ch
    rw [hprev]
    exact prevAt_replicate_none _ _ _ _
  case distPrev =>
    intro v ch hne _
    rw [hdist] at hne ⊢
    by_cases h : v = s ∧ ch < CHANNELS - w + 1
    · rw [if_pos h]
      exact ⟨h.1, rfl, by omega⟩
    · rw [if_neg h] at hne
      exact absurd rfl hne
  case prevInv =>
    intro v ch u chu hplink
    rw [hprev, prevAt_replicate_none] at hplink
    cases hplink

theorem isPathCost_extend {g : Graph} {w : Nat} (v ch : Nat) (costs : List Nat)
    (hcc : calculateChannelCost costs ch w ≠ INF) :
    ∀ (p : List (Nat × Nat)) (u chu c : Nat),
      IsPathCost g w (p ++ [(u, chu)]) c →
      (v, costs) ∈ g.adjOf u →
      IsPathCost g w (p ++ [(u, chu), (v, ch)]) (calculateChannelCost costs ch w + c)
  | [], u, chu, c, hpc, hedge => by
    have hc0 : c = 0 := hpc
    subst hc0
    exact ⟨costs, 0, hedge, hcc, rfl, rfl⟩
  | (a, cha) :: p', u, chu, c, hpc, hedge => by
    cases p' with
    | nil =>
      obtain ⟨costs1, c2, hedge1, hcc1, hrest, hceq⟩ := hpc
      refine ⟨costs1, calculateChannelCost costs ch w + c2, hedge1, hcc1, ?_, by omega⟩
      exact isPathCost_extend v ch costs hcc [] u chu c2 hrest hedge
    | cons b p'' =>
      obtain ⟨b1, b2⟩ := b
      obtain ⟨costs1, c2, hedge1, hcc1, hrest, hceq⟩ := hpc
      refine ⟨costs1, calculateChannelCost costs ch w + c2, hedge1, hcc1, ?_, by omega⟩
      exact isPathCost_extend v ch costs hcc ((b1, b2) :: p'') u chu c2 hrest hedge

theorem reconWalk_sound {g : Graph} {s t w : Nat} {proc : List Entry} {st : SState}
    (hInv : Inv g s t w proc st) :
    ∀ (fuel : Nat) (v ch : Nat) (wl : List (Nat × Nat)),
      reconWalk st.prev fuel (v, ch) = some wl →
      get2 st.dist v ch INF ≠ INF → ch + w ≤ CHANNELS →
      IsPathCost g w wl.reverse (get2 st.dist v ch INF) ∧
      (∀ q ∈ wl, q.2 + w ≤ CHANNELS) ∧
      wl.headD (0, 0) = (v, ch) ∧ wl ≠ [] ∧
      List.Chain' (fun x y => prevAt st.prev x.1 x.2 = some y) wl
  | 0, v, ch, wl, h, _, _ => by simp [reconWalk] at h
  | fuel + 1, v, ch, wl, h, hne, hch => by
    unfold reconWalk at h
    cases hp : prevAt st.prev v ch with
    | none =>
      rw [hp] at h
      simp only at h
      rw [Option.some.injEq] at h
      subst h
      obtain ⟨rfl, hd0, _⟩ := hInv.distPrev v ch hne hp
      refine ⟨?_, ?_, rfl, by simp, List.chain'_singleton _⟩
      · rw [hd0]
        exact rfl
      · intro q hq
        rcases List.mem_singleton.1 hq with rfl
        exact hch
    | some pr =>
      obtain ⟨u, chu⟩ := pr
      rw [hp] at h
      simp only at h
      cases hrec : reconWalk st.prev fuel (u, chu) with
      | none => rw [hrec] at h; cases h
      | some rest =>
        rw [hrec] at h
        simp only [Option.map] at h
        rw [Option.some.injEq] at h
        subst h
        obtain ⟨cu, costs, hcuproc, hedge, hcc, hdeq, hdne, hcont, hch', hchu, hu⟩ :=
          hInv.prevInv v ch u chu hp
        obtain ⟨hducu, hcuINF⟩ := hInv.procDist _ hcuproc
        have ihne : get2 st.dist u chu INF ≠ INF := by rw [hducu]; omega
        obtain ⟨ihcost, ihrange, ihhead, ihnil, ihchain⟩ :=
          reconWalk_sound hInv fuel u chu rest hrec ihne hchu
        obtain ⟨rest', rfl⟩ : ∃ rest', rest = (u, chu) :: rest' := by
          cases rest with
          | nil => exact absurd rfl ihnil
          | cons x rest' =>
            rw [List.headD_cons] at ihhead
            exact ⟨rest', by rw [ihhead]⟩
        refine ⟨?_, ?_, rfl, by simp, List.chain'_cons.2 ⟨hp, ihchain⟩⟩
        · rw [hdeq, hducu] at *
          have hlist : ((v, ch) :: (u, chu) :: rest').reverse
              = rest'.reverse ++ [(u, chu), (v, ch)] := by simp
          rw [hlist, Nat.add_comm cu (calculateChannelCost costs ch w)]
          rw [List.reverse_cons] at ihcost
          exact isPathCost_extend v ch costs hcc rest'.reverse u chu cu ihcost hedge
        · intro q hq
          rcases List.mem_cons.1 hq with rfl | hq
          · exact hch
          · exact ihrange q hq

theorem chain'_middle {α : Type} {R : α → α → Prop} :
    ∀ (l1 : List α) (x y : α) (l2 : List α), List.Chain' R (l1 ++ x :: y :: l2) → R x y
  | [], x, y, l2, h => (List.chain'_cons.1 h).1
  | _ :: l1, x, y, l2, h => chain'_middle l1 x y l2 h.tail

theorem continuityOK_of_linked {g : Graph} {s t w : Nat} {proc : List Entry} {st : SState}
    (hInv : Inv g s t w proc st) (wl : List (Nat × Nat))
    (hchain : List.Chain' (fun x y => prevAt st.prev x.1 x.2 = some y) wl) :
    ContinuityOK g wl.reverse := by
  intro l1 a b c l2 heq hconv
  have hwl : wl = l2.reverse ++ c :: b :: a :: l1.reverse := by
    have h2 := congrArg List.reverse heq
    rw [List.reverse_reverse] at h2
    rw [h2]
    simp
  rw [hwl] at hchain
  have hcb : prevAt st.prev c.1 c.2 = some b := chain'_middle l2.reverse c b _ hchain
  have hba : prevAt st.prev b.1 b.2 = some a := by
    have hassoc : l2.reverse ++ c :: b :: a :: l1.reverse
        = (l2.reverse ++ [c]) ++ b :: a :: l1.reverse := by simp
    rw [hassoc] at hchain
    exact chain'_middle _ b a _ hchain
  have hbs : b.1 ≠ s := by
    intro hbs
    have hnone := hInv.srcPrev b.2
    rw [← hbs] at hnone
    rw [hnone] at hba
    cases hba
  have hb : some (b.1, b.2) = some b := rfl
  obtain ⟨cu, costs, _, _, _, _, _, hcont, _, _, _⟩ :=
    hInv.prevInv c.1 c.2 b.1 b.2 (by rw [hb]; exact hcb)
  exact hcont hconv hbs

theorem inv_pop_stale {g : Graph} {s t w : Nat} {proc : List Entry} {st : SState}
    (hInv : Inv g s t w proc st)
    {ccur u uch : Nat} {pq' : List Entry}
    (hpop : popMin st.pq = some ((ccur, u, uch), pq'))
    (hstale : ccur > get2 st.dist u uch INF) :
    Inv g s t w proc ⟨pq', st.dist, st.prev⟩ := by
  have hperm := popMin_perm _ _ _ hpop
  have hmemo : ∀ x ∈ pq', x ∈ st.pq := fun x hx =>
    hperm.mem_iff.2 (List.mem_cons_of_mem _ hx)
  constructor
  case shapeD => exact hInv.shapeD
  case shapeP => exact hInv.shapeP
  case distLe => exact hInv.distLe
  case procDist => exact hInv.procDist
  case procNoTarget => exact hInv.procNoTarget
  case procMono => exact fun e he x hx => hInv.procMono e he x (hmemo x hx)
  case pqRange => exact fun x hx => hInv.pqRange x (hmemo x hx)
  case pqDist => exact fun x hx => hInv.pqDist x (hmemo x hx)
  case pqReach => exact fun x hx => hInv.pqReach x (hmemo x hx)
  case distFresh =>
    intro v ch hne
    rcases hInv.distFresh v ch hne with hin | hpr
    · rcases List.mem_cons.1 (hperm.mem_iff.1 hin) with heq | hin'
      · exfalso
        have h1 : get2 st.dist v ch INF = ccur := congrArg Prod.fst heq
        have h2 : v = u := congrArg (fun q => q.2.1) heq
        have h3 : ch = uch := congrArg (fun q => q.2.2) heq
        rw [h2, h3] at h1
        omega
      · exact Or.inl hin'
    · exact Or.inr hpr
  case srcDist => exact hInv.srcDist
  case srcPrev => exact hInv.srcPrev
  case distPrev => exact hInv.distPrev
  case prevInv => exact hInv.prevInv

theorem inv_pop_process {g : Graph} {s t w : Nat} {proc : List Entry} {st : SState}
    (hInv : Inv g s t w proc st)
    {ccur u uch : Nat} {pq' : List Entry}
    (hpop : popMin st.pq = some ((ccur, u, uch), pq'))
    (hnt : u ≠ t)
    (hnstale : ¬ ccur > get2 st.dist u uch INF) :
    Inv g s t w ((ccur, u, uch) :: proc) ⟨pq', st.dist, st.prev⟩ := by
  have hperm := popMin_perm _ _ _ hpop
  have hmemo : ∀ x ∈ pq', x ∈ st.pq := fun x hx =>
    hperm.mem_iff.2 (List.mem_cons_of_mem _ hx)
  have hpmem : (ccur, u, uch) ∈ st.pq := hperm.mem_iff.2 (List.mem_cons_self _ _)
  have hdeq : get2 st.dist u uch INF = ccur := by
    have hd : get2 st.dist u uch INF ≤ ccur := hInv.pqDist _ hpmem
    omega
  constructor
  case shapeD => exact hInv.shapeD
  case shapeP => exact hInv.shapeP
  case distLe => exact hInv.distLe
  case procDist =>
    intro e he
    rcases List.mem_cons.1 he with rfl | he
    · exact ⟨hdeq, (hInv.pqRange _ hpmem).2.2⟩
    · exact hInv.procDist e he
  case procNoTarget =>
    intro e he
    rcases List.mem_cons.1 he with rfl | he
    · exact hnt
    · exact hInv.procNoTarget e he
  case procMono =>
    intro e he x hx
    rcases List.mem_cons.1 he with rfl | he
    · exact entryLe_cost (popMin_min _ _ _ hpop x (hmemo x hx))
    · exact hInv.procMono e he x (hmemo x hx)
  case pqRange => exact fun x hx => hInv.pqRange x (hmemo x hx)
  case pqDist => exact fun x hx => hInv.pqDist x (hmemo x hx)
  case pqReach => exact fun x hx => hInv.pqReach x (hmemo x hx)
  case distFresh =>
    intro v ch hne
    rcases hInv.distFresh v ch hne with hin | ⟨c0, hpr⟩
    · rcases List.mem_cons.1 (hperm.mem_iff.1 hin) with heq | hin'
      · refine Or.inr ⟨ccur, ?_⟩
        have h2 : v = u := congrArg (fun q => q.2.1) heq
        have h3 : ch = uch := congrArg (fun q => q.2.2) heq
        rw [h2, h3]
        exact List.mem_cons_self _ _
      · exact Or.inl hin'
    · exact Or.inr ⟨c0, List.mem_cons_of_mem _ hpr⟩
  case srcDist => exact hInv.srcDist
  case srcPrev => exact hInv.srcPrev
  case distPrev => exact hInv.distPrev
  case prevInv =>
    intro v ch u' chu' hplink
    obtain ⟨cu, costs, hm, rest⟩ := hInv.prevInv v ch u' chu' hplink
    exact ⟨cu, costs, List.mem_cons_of_mem _ hm, rest⟩

theorem dijkstraLoop_sound {g : Graph} {s t w : Nat} (hWF : g.WF) (hw1 : 1 ≤ w)
    (hwC : w ≤ CHANNELS) :
    ∀ (fuel : Nat) (proc : List Entry) (st : SState) (p : List (Nat × Nat)) (c : Nat),
      Inv g s t w proc st →
      dijkstraLoop g s t w fuel st = some (p, c) →
      (p = [] ∧ c = INF) ∨
      (p ≠ [] ∧ (∃ ch0, Reach g s w t ch0) ∧ IsPathCost g w p c ∧
        ContinuityOK g p ∧ RangeOK w p)
  | 0, proc, st, p, c, hInv, h => by simp [dijkstraLoop] at h
  | fuel + 1, proc, st, p, c, hInv, h => by
    unfold dijkstraLoop at h
    cases hpop : popMin st.pq with
    | none =>
      rw [hpop] at h
      simp only at h
      rw [Option.some.injEq, Prod.mk.injEq] at h
      exact Or.inl ⟨h.1.symm, h.2.symm⟩
    | some pr =>
      obtain ⟨⟨ccur, u, uch⟩, pq'⟩ := pr
      rw [hpop] at h
      simp only at h
      have hpmem : (ccur, u, uch) ∈ st.pq :=
        (popMin_perm _ _ _ hpop).mem_iff.2 (List.mem_cons_self _ _)
      by_cases hut : u = t
      · rw [if_pos hut] at h
        subst hut
        unfold reconstructPath at h
        cases hwk : reconWalk st.prev (g.node_count * CHANNELS + 1) (u, uch) with
        | none => rw [hwk] at h; cases h
        | some wl =>
          rw [hwk] at h
          simp only [Option.map] at h
          rw [Option.some.injEq, Prod.mk.injEq] at h
          obtain ⟨hp1, hc1⟩ := h
          subst hp1
          subst hc1
          have hrng : u < g.node_count ∧ uch + w ≤ CHANNELS ∧ ccur < INF :=
            hInv.pqRange _ hpmem
          obtain ⟨hun, huch, hclt⟩ := hrng
          have hreach : Reach g s w u uch := hInv.pqReach _ hpmem
          have hle : get2 st.dist u uch INF ≤ ccur := hInv.pqDist _ hpmem
          have heq : get2 st.dist u uch INF = ccur := by
            by_contra hneq
            have hlt : get2 st.dist u uch INF < ccur := by omega
            have hne : get2 st.dist u uch INF ≠ INF := by omega
            rcases hInv.distFresh u uch hne with hin | ⟨c0, hproc0⟩
            · have hcle : ccur ≤ get2 st.dist u uch INF :=
                entryLe_cost (popMin_min _ _ _ hpop _ hin)
              omega
            · exact hInv.procNoTarget _ hproc0 rfl
          have hdne : get2 st.dist u uch INF ≠ INF := by omega
          obtain ⟨hcost, hrange, hhead, hwlne, hchain⟩ :=
            reconWalk_sound hInv _ u uch wl hwk hdne huch
          rw [heq] at hcost
          refine Or.inr ⟨?_, ⟨uch, hreach⟩, hcost, ?_, ?_⟩
          · intro hcon
            exact hwlne (List.reverse_eq_nil_iff.1 hcon)
          · exact continuityOK_of_linked hInv wl hchain
          · intro q hq
            exact hrange q (List.mem_reverse.1 hq)
      · rw [if_neg hut] at h
        by_cases hstale : ccur > distAt st u uch
        · rw [if_pos hstale] at h
          exact dijkstraLoop_sound hWF hw1 hwC fuel proc _ p c
            (inv_pop_stale hInv hpop hstale) h
        · rw [if_neg hstale] at h
          have hInv' := inv_pop_process hInv hpop hut hstale
          have hrng : u < g.node_count ∧ uch + w ≤ CHANNELS ∧ ccur < INF :=
            hInv.pqRange _ hpmem
          obtain ⟨hun, huch, _⟩ := hrng
          have hreach : Reach g s w u uch := hInv.pqReach _ hpmem
          have hproc' : ∀ e ∈ (ccur, u, uch) :: proc, e.1 ≤ ccur := by
            intro e he
            rcases List.mem_cons.1 he with rfl | he
            · exact le_refl _
            · exact hInv.procMono e he _ hpmem
          have hInv'' := relaxAll_inv hWF hw1 hwC hInv' hproc'
            (List.mem_cons_self _ _) hun huch hreach
          exact dijkstraLoop_sound hWF hw1 hwC fuel _ _ p c hInv'' h

/-- Soundness of `findShortestPath` for any successfully returned result:
either the unreachable sentinel, or a non-empty path whose cost decomposes
along its edges, which respects spectrum continuity, whose channels are valid
start channels, and whose existence certifies constrained reachability. -/
theorem findShortestPath_sound (g : Graph) (source target width : Int) (fuel : Nat)
    (hWF : g.WF) (p : List (Nat × Nat)) (c : Nat)
    (hok : findShortestPath g source target width fuel = .ok (some (p, c))) :
    (p = [] ∧ c = INF) ∨
    (p ≠ [] ∧ (∃ ch0, Reach g source.toNat width.toNat target.toNat ch0) ∧
      IsPathCost g width.toNat p c ∧ ContinuityOK g p ∧ RangeOK width.toNat p) := by
  unfold findShortestPath at hok
  by_cases h1 : width < 1 ∨ width > 3
  · rw [if_pos h1] at hok
    cases hok
  · rw [if_neg h1] at hok
    by_cases h2 : source < 0 ∨ source ≥ g.node_count ∨ target < 0 ∨ target ≥ g.node_count
    · rw [if_pos h2] at hok
      cases hok
    · rw [if_neg h2] at hok
      rw [Except.ok.injEq] at hok
      exact dijkstraLoop_sound hWF (by omega) (by unfold CHANNELS; omega) fuel []
        (initState g source.toNat width.toNat) p c
        (inv_init hWF (by omega) (by unfold CHANNELS; omega) (by omega)) hok

end ChannelGraph

/-! ### Claim theorems -/

/-- C2: spectrum continuity.  First, at the path level for
`findShortestPath` of src/ChannelGraph.cpp: in every returned path, around
any two consecutive intermediate hops `a → b → c` where `b` does not support
conversion, the segment start channel recorded for `c` (used on edge `(b,c)`)
equals the one recorded for `b` (used on edge `(a,b)`).  Second, at the
transition level for `findMinCost` of src/OptimizedEfficientGraph.cpp: the
per-edge expansion of a started state at a non-switching node whose run is
not at the spectrum boundary consists of exactly the continue transition —
no start-new-segment transition is generated. -/
theorem C2_spectrum_continuity (g : Graph) (source target width : Int) (fuel : Nat)
    (hWF : g.WF) (p : List (Nat × Nat)) (c : Nat)
    (hok : ChannelGraph.findShortestPath g source target width fuel = .ok (some (p, c))) :
    ChannelGraph.ContinuityOK g p ∧
    (∀ (e : OptimizedEfficientGraph.PrecomputedEdge) (channel : Nat),
      channel < CHANNELS - 1 →
      OptimizedEfficientGraph.expandStarted false e channel
        = [(channel + 1, e.single_costs.getD (channel + 1) 0)]) := by
  constructor
  · rcases ChannelGraph.findShortestPath_sound g source target width fuel hWF p c hok with
      ⟨hp, _⟩ | ⟨_, _, _, hcont, _⟩
    · subst hp
      intro l1 a b cc l2 heq _
      exact absurd heq (by simp)
    · exact hcont
  · intro e channel hch
    unfold OptimizedEfficientGraph.expandStarted OptimizedEfficientGraph.continueCandidates
    rw [if_pos hch, if_neg (by simp; omega)]
    simp

set_option maxRecDepth 1000000 in
/-- Witness for C2 at a concrete input: the zero-cost two-node run. -/
theorem C2_witness :
    gZ.WF ∧
    ChannelGraph.findShortestPath gZ 1 0 1 10 = .ok (some ([(1, 0), (0, 0)], 0)) ∧
    ChannelGraph.ContinuityOK gZ [(1, 0), (0, 0)] ∧
    OptimizedEfficientGraph.expandStarted false (OptimizedEfficientGraph.precomputeEdge 1 cZ) 7
      = [(8, (OptimizedEfficientGraph.precomputeEdge 1 cZ).single_costs.getD 8 0)] := by
  have hWF : gZ.WF := by
    refine ⟨rfl, rfl, ?_⟩
    decide
  have hok : ChannelGraph.findShortestPath gZ 1 0 1 10 = .ok (some ([(1, 0), (0, 0)], 0)) := by
    decide
  have h := C2_spectrum_continuity gZ 1 0 1 10 hWF [(1, 0), (0, 0)] 0 hok
  exact ⟨hWF, hok, h.1, h.2 _ 7 (by decide)⟩

/-- C3: for every valid graph, the total cost returned by `findShortestPath`
of src/ChannelGraph.cpp alongside a non-empty path equals the sum, over
consecutive `(node, channel)` pairs of that path, of the segment cost of the
traversed edge at the channel recorded for the arrival node. -/
theorem C3_path_cost_decomposition (g : Graph) (source target width : Int) (fuel : Nat)
    (hWF : g.WF) (p : List (Nat × Nat)) (c : Nat)
    (hok : ChannelGraph.findShortestPath g source target width fuel = .ok (some (p, c)))
    (hne : p ≠ []) :
    ChannelGraph.IsPathCost g width.toNat p c := by
  rcases ChannelGraph.findShortestPath_sound g source target width fuel hWF p c hok with
    ⟨hp, _⟩ | ⟨_, _, hcost, _, _⟩
  · exact absurd hp hne
  · exact hcost

set_option maxRecDepth 1000000 in
/-- Witness for C3 at a concrete input: the zero-cost two-node run has cost
`0 = cost(edge(1,0), channel 0) + 0`. -/
theorem C3_witness :
    gZ.WF ∧
    ChannelGraph.findShortestPath gZ 1 0 1 10 = .ok (some ([(1, 0), (0, 0)], 0)) ∧
    ([((1 : Nat), (0 : Nat)), (0, 0)] ≠ []) ∧
    ChannelGraph.IsPathCost gZ 1 [(1, 0), (0, 0)] 0 := by
  have hWF : gZ.WF := by
    refine ⟨rfl, rfl, ?_⟩
    decide
  have hok : ChannelGraph.findShortestPath gZ 1 0 1 10 = .ok (some ([(1, 0), (0, 0)], 0)) := by
    decide
  exact ⟨hWF, hok, by simp,
    C3_path_cost_decomposition gZ 1 0 1 10 hWF [(1, 0), (0, 0)] 0 hok (by simp)⟩

/-- C5: for every valid graph in which no constrained edge sequence connects
the source to the target, `findShortestPath` of src/ChannelGraph.cpp returns
the empty path together with the `INF` sentinel as a normal `ok` value (or
has simply not yet terminated within its fuel) — never an exception. -/
theorem C5_unreachable_sentinel (g : Graph) (source target width : Int) (fuel : Nat)
    (hWF : g.WF)
    (hw1 : 1 ≤ width) (hw3 : width ≤ 3)
    (hs0 : 0 ≤ source) (hsn : source < g.node_count)
    (ht0 : 0 ≤ target) (htn : target < g.node_count)
    (hunreach : ∀ ch, ¬ ChannelGraph.Reach g source.toNat width.toNat target.toNat ch) :
    ChannelGraph.findShortestPath g source target width fuel = .ok none ∨
    ChannelGraph.findShortestPath g source target width fuel = .ok (some ([], INF)) := by
  unfold ChannelGraph.findShortestPath
  rw [if_neg (by omega), if_neg (by omega)]
  show (Except.ok (ChannelGraph.dijkstraLoop g source.toNat target.toNat width.toNat fuel
      (ChannelGraph.initState g source.toNat width.toNat)) :
      Except Err (Option (List (Nat × Nat) × Nat))) = .ok none ∨
    (Except.ok (ChannelGraph.dijkstraLoop g source.toNat target.toNat width.toNat fuel
      (ChannelGraph.initState g source.toNat width.toNat)) :
      Except Err (Option (List (Nat × Nat) × Nat))) = .ok (some ([], INF))
  cases hloop : ChannelGraph.dijkstraLoop g source.toNat target.toNat width.toNat fuel
      (ChannelGraph.initState g source.toNat width.toNat) with
  | none => exact Or.inl rfl
  | some r =>
    obtain ⟨p, c⟩ := r
    rcases ChannelGraph.dijkstraLoop_sound hWF (by omega) (by unfold CHANNELS; omega)
        fuel [] _ p c
        (ChannelGraph.inv_init hWF (by omega) (by unfold CHANNELS; omega) (by omega))
        hloop with
      ⟨hp, hc⟩ | ⟨_, ⟨ch0, hreach⟩, _⟩
    · subst hp
      subst hc
      exact Or.inr rfl
    · exact absurd hreach (hunreach ch0)

/-- The no-edge two-node graph has no constrained route from node 0 to
node 1. -/
theorem gNE_unreachable : ∀ ch, ¬ ChannelGraph.Reach gNE 0 1 1 ch := by
  have hadj : ∀ u : Nat, gNE.adjOf u = [] := by
    intro u
    show (List.replicate 2 ([] : List (Nat × List Nat))).getD u [] = []
    by_cases hu : u < 2
    · exact getD_replicate _ _ _ _ hu
    · exact getD_ge _ _ _ (by simpa using Nat.le_of_not_lt hu)
  intro ch h
  cases h with
  | step u chu v ch' costs hr hedge hrange hcont hcc =>
    rw [hadj] at hedge
    cases hedge

set_option maxRecDepth 1000000 in
/-- Witness for C5 at a concrete input: the disconnected two-node graph, on
which the search terminates with the empty path and the `INF` sentinel. -/
theorem C5_witness :
    gNE.WF ∧ (∀ ch, ¬ ChannelGraph.Reach gNE 0 1 1 ch) ∧
    (ChannelGraph.findShortestPath gNE 0 1 1 150 = .ok none ∨
      ChannelGraph.findShortestPath gNE 0 1 1 150 = .ok (some ([], INF))) ∧
    ChannelGraph.findShortestPath gNE 0 1 1 150 = .ok (some ([], INF)) := by
  have hWF : gNE.WF := by
    refine ⟨rfl, rfl, ?_⟩
    decide
  refine ⟨hWF, gNE_unreachable, ?_, by decide⟩
  exact C5_unreachable_sentinel gNE 0 1 1 150 hWF (by decide) (by decide) (by decide)
    (by decide) (by decide) (by decide) gNE_unreachable

/-- C6: the precomputed Segment Cost Index is equivalent to direct summation —
for every cost vector of length `CHANNELS`, every width in `{1,2,3}` and every
start channel with `start + w ≤ CHANNELS`, the O(1) lookup `getSegmentCost`
on `precomputeEdge` returns exactly the naive `calculateChannelCost` sum. -/
theorem C6_segment_cost_index_equiv (tn : Nat) (costs : List Nat) (start w : Nat)
    (hlen : costs.length = CHANNELS) (hw1 : 1 ≤ w) (hw3 : w ≤ 3)
    (hrange : start + w ≤ CHANNELS) :
    OptimizedEfficientGraph.getSegmentCost (OptimizedEfficientGraph.precomputeEdge tn costs)
        start w
      = calculateChannelCost costs start w := by
  have hC : CHANNELS = 100 := rfl
  unfold OptimizedEfficientGraph.getSegmentCost OptimizedEfficientGraph.precomputeEdge
    calculateChannelCost
  interval_cases w
  · rw [if_neg (show ¬ CHANNELS < start + 1 from by omega)]
    simp [List.range_succ]
  · rw [if_neg (show ¬ CHANNELS < start + 2 from by omega),
      getD_map_range _ _ _ _ (show start < CHANNELS - 1 from by omega)]
    simp [List.range_succ]
  · rw [if_neg (show ¬ CHANNELS < start + 3 from by omega),
      getD_map_range _ _ _ _ (show start < CHANNELS - 2 from by omega)]
    simp [List.range_succ]
    omega

/-- Witness for C6 at a concrete input: the ascending cost vector
`0,1,…,99`, width 2, start channel 5. -/
theorem C6_witness :
    (List.range 100).length = CHANNELS ∧ 1 ≤ 2 ∧ 2 ≤ 3 ∧ 5 + 2 ≤ CHANNELS ∧
    OptimizedEfficientGraph.getSegmentCost
        (OptimizedEfficientGraph.precomputeEdge 1 (List.range 100)) 5 2
      = calculateChannelCost (List.range 100) 5 2 :=
  ⟨by decide, by decide, by decide, by decide,
   C6_segment_cost_index_equiv 1 (List.range 100) 5 2 (by decide) (by decide) (by decide)
     (by decide)⟩

/-- C7: both `findShortestPath` variants validate their inputs before
searching — a width outside `{1,2,3}` yields `invalid_argument`, and (with a
valid width) an out-of-range source or target yields `out_of_range`; in both
cases the result is the error alone, no path is computed. -/
theorem C7_query_validation (g : Graph) (source target width : Int) (fuel : Nat) :
    ((width < 1 ∨ width > 3) →
      ChannelGraph.findShortestPath g source target width fuel = .error .invalidArgument ∧
      ChannelGraph2.findShortestPath g source target width fuel = .error .invalidArgument) ∧
    (1 ≤ width → width ≤ 3 →
      (source < 0 ∨ source ≥ g.node_count ∨ target < 0 ∨ target ≥ g.node_count) →
      ChannelGraph.findShortestPath g source target width fuel = .error .rangeError ∧
      ChannelGraph2.findShortestPath g source target width fuel = .error .rangeError) := by
  constructor
  · intro h
    constructor
    · unfold ChannelGraph.findShortestPath
      rw [if_pos h]
    · unfold ChannelGraph2.findShortestPath
      rw [if_pos h]
  · intro h1 h3 hr
    have hnw : ¬(width < 1 ∨ width > 3) := by omega
    constructor
    · unfold ChannelGraph.findShortestPath
      rw [if_neg hnw, if_pos hr]
    · unfold ChannelGraph2.findShortestPath
      rw [if_neg hnw, if_pos hr]

/-- Witness for C7 at concrete inputs: width 5 is rejected, and node id 7 is
rejected on the 1-node graph. -/
theorem C7_witness :
    ((5 : Int) < 1 ∨ (5 : Int) > 3) ∧
    ChannelGraph.findShortestPath g1n 0 0 5 1 = .error .invalidArgument ∧
    ((7 : Int) < 0 ∨ (7 : Int) ≥ g1n.node_count ∨ (0 : Int) < 0 ∨ (0 : Int) ≥ g1n.node_count) ∧
    ChannelGraph.findShortestPath g1n 7 0 1 1 = .error .rangeError :=
  ⟨Or.inr (by decide),
   ((C7_query_validation g1n 0 0 5 1).1 (Or.inr (by decide))).1,
   Or.inr (Or.inl (by decide)),
   ((C7_query_validation g1n 7 0 1 1).2 (by decide) (by decide)
      (Or.inr (Or.inl (by decide)))).1⟩

/-- C8, counterexample to the claim as stated: `setChannelSwitchSupport` of
src/OptimizedEfficientGraph1.cpp does not fail with `RangeError` on an
out-of-bounds node — it silently returns the graph unchanged (its return type
admits no exception at all). -/
theorem C8_counterexample :
    (5 : Int) ≥ (OptimizedEfficientGraph1.mkGraph1 1).n ∧
    OptimizedEfficientGraph1.setChannelSwitchSupport (OptimizedEfficientGraph1.mkGraph1 1) 5 true
      = OptimizedEfficientGraph1.mkGraph1 1 := by
  constructor
  · decide
  · decide

/-- C8 (amended): `ChannelGraph`'s `addEdge` fails with `RangeError` on
out-of-range node ids and with `InvalidArgument` on a cost vector whose length
is not `CHANNELS`, and on success inserts a symmetric bidirectional edge
carrying the identical cost vector in both adjacency lists; `ChannelGraph`'s
`setNodeConversion` fails with `RangeError` out of bounds.
`OptimizedEfficientGraph1`'s `setChannelSwitchSupport`, however, silently
ignores an out-of-bounds node instead of failing, and its `addEdge` validates
only the cost-vector length. -/
theorem C8_construction_validation_amended :
    (∀ (g : Graph) (u v : Int) (costs : List Nat),
      (u < 0 ∨ u ≥ g.node_count ∨ v < 0 ∨ v ≥ g.node_count) →
      ChannelGraph.addEdge g u v costs = .error .rangeError) ∧
    (∀ (g : Graph) (u v : Int) (costs : List Nat),
      0 ≤ u → u < g.node_count → 0 ≤ v → v < g.node_count → costs.length ≠ CHANNELS →
      ChannelGraph.addEdge g u v costs = .error .invalidArgument) ∧
    (∀ (g : Graph) (u v : Int) (costs : List Nat),
      g.adj_list.length = g.node_count →
      0 ≤ u → u < g.node_count → 0 ≤ v → v < g.node_count → costs.length = CHANNELS →
      u ≠ v →
      ∃ g', ChannelGraph.addEdge g u v costs = .ok g' ∧
        g'.node_count = g.node_count ∧
        g'.node_support_convert = g.node_support_convert ∧
        g'.adjOf u.toNat = g.adjOf u.toNat ++ [(v.toNat, costs)] ∧
        g'.adjOf v.toNat = g.adjOf v.toNat ++ [(u.toNat, costs)] ∧
        ∀ x : Nat, x ≠ u.toNat → x ≠ v.toNat → g'.adjOf x = g.adjOf x) ∧
    (∀ (g : Graph) (node : Int) (b : Bool), (node < 0 ∨ node ≥ g.node_count) →
      ChannelGraph.setNodeConversion g node b = .error .rangeError) ∧
    (∀ (g : OptimizedEfficientGraph1.Graph1) (node : Int) (b : Bool),
      (node < 0 ∨ node ≥ g.n) →
      OptimizedEfficientGraph1.setChannelSwitchSupport g node b = g) := by
  refine ⟨?_, ?_, ?_, ?_, ?_⟩
  · intro g u v costs h
    unfold ChannelGraph.addEdge
    rw [if_pos (by omega)]
  · intro g u v costs hu0 hun hv0 hvn hlen
    unfold ChannelGraph.addEdge
    rw [if_neg (by omega), if_pos hlen]
  · intro g u v costs hadj hu0 hun hv0 hvn hlen huv
    have hne : u.toNat ≠ v.toNat := by omega
    have hult : u.toNat < g.adj_list.length := by omega
    have hvlt : v.toNat < (g.adj_list.set u.toNat
        (g.adjOf u.toNat ++ [(v.toNat, costs)])).length := by
      simp only [List.length_set]
      omega
    refine ⟨⟨g.node_count,
      (g.adj_list.set u.toNat (g.adjOf u.toNat ++ [(v.toNat, costs)])).set v.toNat
        ((g.adj_list.set u.toNat (g.adjOf u.toNat ++ [(v.toNat, costs)])).getD v.toNat []
          ++ [(u.toNat, costs)]),
      g.node_support_convert⟩, ?_, rfl, rfl, ?_, ?_, ?_⟩
    · unfold ChannelGraph.addEdge
      rw [if_neg (by omega), if_neg (by omega)]
      rfl
    · show ((g.adj_list.set u.toNat (g.adjOf u.toNat ++ [(v.toNat, costs)])).set v.toNat
          ((g.adj_list.set u.toNat (g.adjOf u.toNat ++ [(v.toNat, costs)])).getD v.toNat []
            ++ [(u.toNat, costs)])).getD u.toNat []
        = g.adjOf u.toNat ++ [(v.toNat, costs)]
      rw [getD_set_ne _ _ _ _ _ hne, getD_set_self _ _ _ _ hult]
    · show ((g.adj_list.set u.toNat (g.adjOf u.toNat ++ [(v.toNat, costs)])).set v.toNat
          ((g.adj_list.set u.toNat (g.adjOf u.toNat ++ [(v.toNat, costs)])).getD v.toNat []
            ++ [(u.toNat, costs)])).getD v.toNat []
        = g.adjOf v.toNat ++ [(u.toNat, costs)]
      rw [getD_set_self _ _ _ _ hvlt, getD_set_ne _ _ _ _ _ (Ne.symm hne)]
      rfl
    · intro x hxu hxv
      show ((g.adj_list.set u.toNat (g.adjOf u.toNat ++ [(v.toNat, costs)])).set v.toNat
          ((g.adj_list.set u.toNat (g.adjOf u.toNat ++ [(v.toNat, costs)])).getD v.toNat []
            ++ [(u.toNat, costs)])).getD x []
        = g.adjOf x
      rw [getD_set_ne _ _ _ _ _ hxv, getD_set_ne _ _ _ _ _ hxu]
      rfl
  · intro g node b h
    unfold ChannelGraph.setNodeConversion
    rw [if_pos (by omega)]
  · intro g node b h
    unfold OptimizedEfficientGraph1.setChannelSwitchSupport
    rw [if_neg (by omega)]

/-- Witness for C8 at concrete inputs on a 2-node graph. -/
theorem C8_witness :
    ((5 : Int) < 0 ∨ (5 : Int) ≥ (mkGraph 2).node_count ∨ (0 : Int) < 0 ∨
      (0 : Int) ≥ (mkGraph 2).node_count) ∧
    ChannelGraph.addEdge (mkGraph 2) 5 0 cZ = .error .rangeError ∧
    ((3 : Int) < 0 ∨ (3 : Int) ≥ (mkGraph 2).node_count) ∧
    ChannelGraph.setNodeConversion (mkGraph 2) 3 true = .error .rangeError :=
  ⟨Or.inr (Or.inl (by decide)),
   C8_construction_validation_amended.1 (mkGraph 2) 5 0 cZ (Or.inr (Or.inl (by decide))),
   Or.inr (by decide),
   C8_construction_validation_amended.2.2.2.1 (mkGraph 2) 3 true (Or.inr (by decide))⟩

/-- C9, counterexample to the claim as stated: `reconstructPath` of
src/OptimizedEfficientGraph3.cpp, on a predecessor chain that dead-ends before
reaching the source (here source 0, walking 2 → 7 where the node-7 state's key
is missing), silently returns the truncated path `[(7,3), (2,-1)]` — whose
first node 7 is not the source — rather than signalling any integrity error
(its return type admits no exception). -/
theorem C9_counterexample :
    OptimizedEfficientGraph3.reconstructPath (some stFinal3) pred3 0 2 10
      = some [(7, 3), (2, -1)] ∧ (7 : Int) ≠ 0 := by
  constructor
  · decide
  · decide

/-- C9 (amended): reconstruction failure is loud in the src/ChannelGraph2.cpp
variant: whenever its `reconstructPath` returns a path (rather than throwing
`runtime_error`), that path has no repeated node and starts at the source, so
a broken or node-repeating predecessor chain can never produce a returned
path; `OptimizedEfficientGraph3`'s reconstruction instead truncates silently. -/
theorem C9_reconstruction_loud_amended (g : Graph)
    (p : List (List (Option (Nat × Nat)))) (source target tch cost : Nat)
    (path : List (Nat × Nat)) (c : Nat)
    (hok : ChannelGraph2.reconstructPath2 g p source target tch cost = .ok (some (path, c))) :
    (path.map Prod.fst).Nodup ∧ (path.headD (0, 0)).1 = source ∧ c = cost := by
  obtain ⟨h1, h2, h3, _⟩ :=
    ChannelGraph2.reconstructPath2_ok_sound g p source target tch cost path c hok
  exact ⟨h1, h2, h3⟩

set_option maxRecDepth 1000000 in
/-- Witness for C9 (amended) at a concrete input: the predecessor table `pZ`
reconstructs the path `[(1,0), (0,0)]` with no duplicate node. -/
theorem C9_witness :
    ChannelGraph2.reconstructPath2 gZ pZ 1 0 0 0 = .ok (some ([(1, 0), (0, 0)], 0)) ∧
    ((([((1 : Nat), (0 : Nat)), (0, 0)]).map Prod.fst).Nodup ∧
      (([((1 : Nat), (0 : Nat)), (0, 0)]).headD (0, 0)).1 = 1 ∧ (0 : Nat) = 0) := by
  have h : ChannelGraph2.reconstructPath2 gZ pZ 1 0 0 0 = .ok (some ([(1, 0), (0, 0)], 0)) := by
    decide
  exact ⟨h, C9_reconstruction_loud_amended gZ pZ 1 0 0 0 [(1, 0), (0, 0)] 0 h⟩

set_option maxRecDepth 1000000 in
/-- C4, counterexample to the claim as stated: `findShortestPath` of
src/ChannelGraph.cpp with `source == target` returns the single-element path
`[(source, 0)]` — carrying valid start channel 0, not the sentinel `-1` the
claim requires — together with cost 0. -/
theorem C4_counterexample :
    ChannelGraph.findShortestPath g1n 0 0 1 5 = .ok (some ([(0, 0)], 0)) ∧
    ([((0 : Nat), (0 : Nat))].map (fun q => ((q.1 : Int), (q.2 : Int)))
      ≠ [((0 : Int), (-1 : Int))]) := by
  constructor
  · decide
  · decide

/-- C4 (amended): when `source == target`, `findShortestPath` of
src/ChannelGraph.cpp returns the single-element path `[(source, 0)]` with
total cost 0 and no edge traversed — the channel recorded is the smallest
valid start channel 0, not a `-1` sentinel; `findMinCostPath` of
src/OptimizedEfficientGraph3.cpp returns `[(source, -1)]` with the sentinel
(and no cost value at all, its return type carrying only the path). -/
theorem C4_source_equals_target_amended (g : Graph) (s w : Int) (fuel : Nat)
    (hw1 : 1 ≤ w) (hw3 : w ≤ 3) (hs0 : 0 ≤ s) (hsn : s < g.node_count) :
    ChannelGraph.findShortestPath g s s w (fuel + 1) = .ok (some ([(s.toNat, 0)], 0)) ∧
    ∀ (t : Int) (search : Int → Int → List (Int × Int)),
      OptimizedEfficientGraph3.findMinCostPath t t search = [(t, -1)] := by
  constructor
  · unfold ChannelGraph.findShortestPath
    rw [if_neg (by omega), if_neg (by omega)]
    have hpq : (ChannelGraph.initState g s.toNat w.toNat).pq
        = (0, s.toNat, 0) ::
          (List.range (CHANNELS - w.toNat)).map (fun i => (0, s.toNat, i + 1)) := by
      rw [ChannelGraph.initState_pq, List.range_succ_eq_map]
      simp [Function.comp_def]
    have hmin : ∀ x ∈ (List.range (CHANNELS - w.toNat)).map
        (fun i => ((0 : Nat), s.toNat, i + 1)),
        ChannelGraph.entryLe (0, s.toNat, 0) x = true := by
      intro x hx
      obtain ⟨i, _, rfl⟩ := List.mem_map.1 hx
      simp [ChannelGraph.entryLe]
    show (Except.ok (ChannelGraph.dijkstraLoop g s.toNat s.toNat w.toNat (fuel + 1)
        (ChannelGraph.initState g s.toNat w.toNat)) :
        Except Err (Option (List (Nat × Nat) × Nat)))
      = .ok (some ([(s.toNat, 0)], 0))
    refine congrArg Except.ok ?_
    unfold ChannelGraph.dijkstraLoop
    rw [hpq, ChannelGraph.popMin_head _ _ hmin]
    simp only
    rw [if_pos trivial]
    unfold ChannelGraph.reconstructPath
    rw [ChannelGraph.initState_prev,
      ChannelGraph.reconWalk_none _ _ _ _ (ChannelGraph.prevAt_replicate_none _ _ _ _)]
    rfl
  · intro t search
    unfold OptimizedEfficientGraph3.findMinCostPath
    rw [if_pos rfl]

/-- Witness for C4 (amended) at concrete inputs. -/
theorem C4_witness :
    (1 : Int) ≤ 1 ∧ (1 : Int) ≤ 3 ∧ (0 : Int) ≤ 1 ∧ (1 : Int) < gZ.node_count ∧
    ChannelGraph.findShortestPath gZ 1 1 1 5 = .ok (some ([(1, 0)], 0)) ∧
    OptimizedEfficientGraph3.findMinCostPath 4 4 (fun _ _ => []) = [((4 : Int), -1)] := by
  have h := C4_source_equals_target_amended gZ 1 1 4 (by decide) (by decide) (by decide)
    (by decide)
  exact ⟨by decide, by decide, by decide, by decide, h.1, h.2 4 (fun _ _ => [])⟩

set_option maxRecDepth 1000000 in
/-- C1, counterexample to the claim as stated: `findShortestPath` of
src/ChannelGraph.cpp (which has no closed set and no reconstruction guard) on
the graph `gDup` returns the non-empty path
`[(3,0), (1,0), (2,0), (1,1), (0,1)]`, in which the physical node 1 appears in
two distinct (node, channel) entries — the converting node 2 lets the search
revisit node 1 on a different start channel at a cheaper cost. -/
theorem C1_counterexample :
    ChannelGraph.findShortestPath gDup 3 0 1 10
      = .ok (some ([(3, 0), (1, 0), (2, 0), (1, 1), (0, 1)], 0)) ∧
    ¬ (([((3 : Nat), (0 : Nat)), (1, 0), (2, 0), (1, 1), (0, 1)].map Prod.fst).Nodup) := by
  constructor
  · decide
  · decide

/-- C1 (amended): the no-duplicate-node guarantee does hold for the
src/ChannelGraph2.cpp variant: whenever its `findShortestPath` returns a
non-empty path, no physical node identifier appears in two distinct
(node, channel) entries of that path, because its `reconstructPath` throws
`runtime_error` on any repeated node before returning.  (The src/ChannelGraph.cpp
variant violates the claim, per the counterexample.) -/
theorem C1_no_duplicate_amended (g : Graph) (source target width : Int) (fuel : Nat)
    (p : List (Nat × Nat)) (c : Nat)
    (hok : ChannelGraph2.findShortestPath g source target width fuel = .ok (some (p, c)))
    (hne : p ≠ []) :
    (p.map Prod.fst).Nodup := by
  unfold ChannelGraph2.findShortestPath at hok
  by_cases h1 : width < 1 ∨ width > 3
  · rw [if_pos h1] at hok
    cases hok
  · rw [if_neg h1] at hok
    by_cases h2 : source < 0 ∨ source ≥ g.node_count ∨ target < 0 ∨ target ≥ g.node_count
    · rw [if_pos h2] at hok
      cases hok
    · rw [if_neg h2] at hok
      rcases ChannelGraph2.dijkstraLoop2_shape fuel _ p c hok with ⟨hp, _⟩ | ⟨hnd, _⟩
      · exact absurd hp hne
      · exact hnd

set_option maxRecDepth 1000000 in
/-- Witness for C1 (amended) at a concrete input: the src/ChannelGraph2.cpp
search on the zero-cost two-node graph returns the duplicate-free path
`[(1,0), (0,0)]`. -/
theorem C1_witness :
    ChannelGraph2.findShortestPath gZ 1 0 1 10 = .ok (some ([(1, 0), (0, 0)], 0)) ∧
    ([((1 : Nat), (0 : Nat)), (0, 0)] : List (Nat × Nat)) ≠ [] ∧
    (([((1 : Nat), (0 : Nat)), (0, 0)].map Prod.fst).Nodup) := by
  have h : ChannelGraph2.findShortestPath gZ 1 0 1 10 = .ok (some ([(1, 0), (0, 0)], 0)) := by
    decide
  exact ⟨h, by decide, C1_no_duplicate_amended gZ 1 0 1 10 [(1, 0), (0, 0)] 0 h (by decide)⟩

/-- C10: output channel-range invariant, stated per variant.  Every channel
recorded in a path returned by `findShortestPath` of src/ChannelGraph.cpp
(first conjunct, for well-formed graphs), and every channel recorded in a
path returned by `findShortestPath` of src/ChannelGraph2.cpp (second
conjunct, unconditionally), is a valid start channel for the requested
width: `ch + width ≤ CHANNELS`, i.e. `ch` lies in `[0, CHANNELS - width]`
(channels are natural numbers in both variants, so no `-1` sentinel can
appear).  Each conjunct assumes only its own variant's success. -/
theorem C10_channel_range (g : Graph) (source target width : Int) :
    (∀ (fuel : Nat) (p : List (Nat × Nat)) (c : Nat), g.WF →
      ChannelGraph.findShortestPath g source target width fuel = .ok (some (p, c)) →
      ∀ q ∈ p, q.2 + width.toNat ≤ CHANNELS ∧ q.2 ≤ CHANNELS - width.toNat) ∧
    (∀ (fuel2 : Nat) (p2 : List (Nat × Nat)) (c2 : Nat),
      ChannelGraph2.findShortestPath g source target width fuel2 = .ok (some (p2, c2)) →
      ∀ q ∈ p2, q.2 + width.toNat ≤ CHANNELS ∧ q.2 ≤ CHANNELS - width.toNat) := by
  constructor
  · intro fuel p c hWF hok
    rcases ChannelGraph.findShortestPath_sound g source target width fuel hWF p c hok with
      ⟨hp, _⟩ | ⟨_, _, _, _, hrng⟩
    · subst hp
      intro q hq
      cases hq
    · intro q hq
      have h := hrng q hq
      exact ⟨h, by omega⟩
  · intro fuel2 p2 c2 hok2
    unfold ChannelGraph2.findShortestPath at hok2
    by_cases h1 : width < 1 ∨ width > 3
    · rw [if_pos h1] at hok2
      cases hok2
    · rw [if_neg h1] at hok2
      by_cases h2 : source < 0 ∨ source ≥ g.node_count ∨ target < 0 ∨ target ≥ g.node_count
      · rw [if_pos h2] at hok2
        cases hok2
      · rw [if_neg h2] at hok2
        have hw1 : 1 ≤ width.toNat := by omega
        have hwC : width.toNat ≤ CHANNELS := by unfold CHANNELS; omega
        intro q hq
        have h := ChannelGraph2.dijkstraLoop2_range hw1 hwC fuel2 _ p2 c2
          (ChannelGraph2.inv2_init g source.toNat width.toNat hw1 hwC) hok2 q hq
        exact ⟨h, by omega⟩

set_option maxRecDepth 1000000 in
/-- Witness for C10 at a concrete input: both searches on the zero-cost
two-node graph return the path `[(1,0), (0,0)]`, whose channels 0 lie in
`[0, CHANNELS - 1]`. -/
theorem C10_witness :
    gZ.WF ∧
    ChannelGraph.findShortestPath gZ 1 0 1 5 = .ok (some ([(1, 0), (0, 0)], 0)) ∧
    ChannelGraph2.findShortestPath gZ 1 0 1 5 = .ok (some ([(1, 0), (0, 0)], 0)) ∧
    ((∀ q ∈ ([((1 : Nat), (0 : Nat)), (0, 0)] : List (Nat × Nat)),
        q.2 + (1 : Int).toNat ≤ CHANNELS ∧ q.2 ≤ CHANNELS - (1 : Int).toNat) ∧
     (∀ q ∈ ([((1 : Nat), (0 : Nat)), (0, 0)] : List (Nat × Nat)),
        q.2 + (1 : Int).toNat ≤ CHANNELS ∧ q.2 ≤ CHANNELS - (1 : Int).toNat)) := by
  have hWF : gZ.WF := by
    refine ⟨rfl, rfl, ?_⟩
    decide
  have h1 : ChannelGraph.findShortestPath gZ 1 0 1 5 = .ok (some ([(1, 0), (0, 0)], 0)) := by
    decide
  have h2 : ChannelGraph2.findShortestPath gZ 1 0 1 5 = .ok (some ([(1, 0), (0, 0)], 0)) := by
    decide
  exact ⟨hWF, h1, h2,
    (C10_channel_range gZ 1 0 1).1 5 [(1, 0), (0, 0)] 0 hWF h1,
    (C10_channel_range gZ 1 0 1).2 5 [(1, 0), (0, 0)] 0 h2⟩

end RSA
